import Mathlib

/-!
Verification development for the MindCanvas backend (knowledge retrieval and
graph engine).  The Python sources `supabase_db.py`, `rag_chatbot.py` and
`main.py` are shallowly embedded below: pure computations become Lean
functions over `ℚ` (Python floats are modelled as exact rationals), fallible
external calls (Supabase RPC, table fetches, the embedding provider, the
answer-generation LLM) become explicit `Except`-valued inputs, and Python
`list.sort` (a stable sort) is modelled by `List.insertionSort`, which is
also stable.  The real-valued core of cosine similarity,
`dot a b / (‖a‖ * ‖b‖)`, involves irrational square roots, so it is passed
around as an abstract parameter `core`; all the guard clauses of
`_cosine_similarity` (length mismatch, empty vectors, zero norms) are
modelled exactly.
-/

namespace MindCanvas

/-- Dot product of two rational vectors (numpy `np.dot` on equal-length
float arrays, modelled over `ℚ`). -/
def dot : List ℚ → List ℚ → ℚ
  | a :: as, b :: bs => a * b + dot as bs
  | _, _ => 0

/-- Python `round(x, 3)`: round to three decimal places.  (Python uses
round-half-to-even on binary floats; on the half-grid boundary the two
differ, elsewhere this is exact.) -/
def roundTo3 (x : ℚ) : ℚ := (round (x * 1000) : ℤ) / 1000

/-- Python `round(x, 2)`. -/
def roundTo2 (x : ℚ) : ℚ := (round (x * 100) : ℤ) / 100

/-- `_cosine_similarity` from `supabase_db.py`.  The guards are modelled
exactly: mismatched lengths give `0`, empty vectors give `0`, and a zero
norm on either side gives `0` (a norm is zero iff the sum of squares,
`dot v v`, is zero).  The remaining non-degenerate value
`dot a b / (norm a * norm b)` is supplied by the abstract parameter
`core`; theorems below either hold for every `core` or instantiate it
with a value certified (via `dot`) to equal the true cosine at the
concrete vectors involved. -/
def cosine_similarity (core : List ℚ → List ℚ → ℚ) (a b : List ℚ) : ℚ :=
  if a.length ≠ b.length then 0
  else if a.length = 0 then 0
  else if dot a a = 0 ∨ dot b b = 0 then 0
  else core a b

/-- Descending comparison by a rational key; `byKeyDesc key a b` means
`a` may come before `b`. -/
def byKeyDesc {α : Type} (key : α → ℚ) : α → α → Prop :=
  fun a b => key b ≤ key a

instance {α : Type} (key : α → ℚ) : DecidableRel (byKeyDesc key) :=
  fun a b => inferInstanceAs (Decidable (key b ≤ key a))

instance {α : Type} (key : α → ℚ) : IsTotal α (byKeyDesc key) :=
  ⟨fun a b => le_total (key b) (key a)⟩

instance {α : Type} (key : α → ℚ) : IsTrans α (byKeyDesc key) :=
  ⟨fun _ _ _ h1 h2 => le_trans h2 h1⟩

/-- Python `list.sort(key=..., reverse=True)`: a stable sort into
descending key order.  `List.insertionSort` with `byKeyDesc` is stable,
so it computes the same list as CPython Timsort. -/
def pySortDesc {α : Type} (key : α → ℚ) (l : List α) : List α :=
  l.insertionSort (byKeyDesc key)

/-- The 1536-dimensional zero vector `[0.0] * 1536`. -/
def zeroVec : List ℚ := List.replicate 1536 0

/-- `SimpleVectorDB.generate_embedding` from `supabase_db.py`.  The call
`self.openai_embedder.embed_query` is an external network call, so its
outcome is the input `provider`; `use_openai` and `openai_available`
model the `use_openai` argument and `self.openai_embedder` being
configured.  Every failure branch returns the 1536-dim zero vector. -/
def generate_embedding (use_openai openai_available : Bool)
    (provider : Except String (List ℚ)) : List ℚ :=
  if use_openai && openai_available then
    match provider with
    | .ok emb => if emb.length ≠ 1536 then zeroVec else emb
    | .error _ => zeroVec
  else zeroVec

/-- `ContentItem` from `supabase_db.py` (`visit_timestamp` is carried as
its ISO string form, which is what `store_content` serializes). -/
structure ContentItem where
  url : String
  title : String
  summary : String
  content : String
  content_type : String
  key_topics : List String
  quality_score : ℤ
  processing_method : String
  visit_timestamp : String
  content_hash : String
  embedding : Option (List ℚ)
deriving DecidableEq

/-- `SimpleVectorDB.store_content`: when the item carries no embedding
(`None` or the empty list, both falsy in Python), one is generated and
written into the item; the item is then upserted.  The model returns the
success flag (`bool(result.data)`, `False` when the upsert raised) and
the item as stored. -/
def store_content (item : ContentItem) (use_openai openai_available : Bool)
    (provider : Except String (List ℚ)) (upsertOutcome : Except String Bool) :
    Bool × ContentItem :=
  let emb := generate_embedding use_openai openai_available provider
  let item' :=
    if item.embedding = none ∨ item.embedding = some [] then
      { item with embedding := some emb }
    else item
  match upsertOutcome with
  | .ok b => (b, item')
  | .error _ => (false, item')

/-- A row returned by the Supabase RPC `match_processed_content`. -/
structure RpcRow where
  id : ℤ
  url : String
  title : String
  summary : String
  content_type : String
  key_topics : Option (List String)
  quality_score : ℤ
  similarity : ℚ
deriving DecidableEq

/-- A row of the `processed_content` table as fetched by the manual
(fallback) paths. -/
structure DbRow where
  id : ℤ
  url : String
  title : String
  summary : String
  content_type : String
  key_topics : Option (List String)
  quality_score : ℤ
  embedding : Option (List ℚ)
deriving DecidableEq

/-- A result dictionary produced by `semantic_search`. -/
structure SearchResult where
  id : ℤ
  url : String
  title : String
  summary : String
  content_type : String
  key_topics : List String
  quality_score : ℤ
  similarity : ℚ
deriving DecidableEq

/-- The result built from an RPC row on the RPC path of
`semantic_search` (`item.get('key_topics') or []`, similarity rounded
to 3 decimals). -/
def rpcRowToResult (r : RpcRow) : SearchResult :=
  { id := r.id, url := r.url, title := r.title, summary := r.summary,
    content_type := r.content_type, key_topics := r.key_topics.getD [],
    quality_score := r.quality_score, similarity := roundTo3 r.similarity }

/-- The per-row body of the manual full-scan loop of `semantic_search`:
rows whose embedding is falsy or not 1536-dimensional are skipped
(logged in the source); similarities are computed and filtered by
`threshold` (non-strict, `similarity >= threshold`); the kept result
records the similarity rounded to 3 decimals. -/
def scanCandidate (core : List ℚ → List ℚ → ℚ) (q : List ℚ)
    (threshold : ℚ) (r : DbRow) : Option SearchResult :=
  match r.embedding with
  | none => none
  | some e =>
    if e = [] ∨ e.length ≠ 1536 then none
    else
      let s := cosine_similarity core q e
      if threshold ≤ s then
        some { id := r.id, url := r.url, title := r.title,
               summary := r.summary, content_type := r.content_type,
               key_topics := r.key_topics.getD [],
               quality_score := r.quality_score,
               similarity := roundTo3 s }
      else none

def manualScanCandidates (core : List ℚ → List ℚ → ℚ) (q : List ℚ)
    (threshold : ℚ) (rows : List DbRow) : List SearchResult :=
  rows.filterMap (scanCandidate core q threshold)

/-- The manual (client-side full scan) part of `semantic_search`.  The
server-side query filter `embedding isnot null` is applied to the
fetched table; a raised fetch is caught by the outer handler of
`semantic_search`, which returns `[]`.  The kept candidates are sorted
descending by their (rounded) similarity — `list.sort` is stable and
sorts by similarity only — then truncated to `limit`. -/
def manualScanSearch (core : List ℚ → List ℚ → ℚ) (q : List ℚ) (limit : ℕ)
    (threshold : ℚ) (fetch : Except String (List DbRow)) : List SearchResult :=
  match fetch with
  | .error _ => []
  | .ok table =>
    let rows := table.filter (fun r => r.embedding ≠ none)
    if rows = [] then []
    else
      (pySortDesc (fun x => x.similarity)
        (manualScanCandidates core q threshold rows)).take limit

/-- `SimpleVectorDB.semantic_search` from `supabase_db.py`, modelled from
the point where the query embedding `q` is available (the preceding
`generate_embedding` call is modelled separately).  An empty or
non-1536-dimensional query embedding aborts with `[]`.  The RPC outcome
is the input `rpc`: on data it is returned directly (no further
truncation), on empty data the function returns `[]`, and on a raise it
falls back to the manual scan. -/
def semantic_search (core : List ℚ → List ℚ → ℚ) (q : List ℚ) (limit : ℕ)
    (threshold : ℚ) (rpc : Except String (List RpcRow))
    (fetch : Except String (List DbRow)) : List SearchResult :=
  if q = [] ∨ q.length ≠ 1536 then []
  else
    match rpc with
    | .ok rows => if rows ≠ [] then rows.map rpcRowToResult else []
    | .error _ => manualScanSearch core q limit threshold fetch

/-- Contract of the SQL function `match_processed_content` (its
definition ships inside `supabase_db.py`, `get_database_setup_sql`): at
most `match_count` rows, every similarity strictly above
`match_threshold`, ordered descending by similarity. -/
def matchRpcContract (rows : List RpcRow) (count : ℕ) (thr : ℚ) : Prop :=
  rows.length ≤ count ∧ (∀ r ∈ rows, thr < r.similarity) ∧
    List.Sorted (byKeyDesc (fun r : RpcRow => r.similarity)) rows

/-- The first source row fetched by `get_related_content` (only its
embedding is consulted; `title` and `summary` are fetched but unused). -/
structure SourceRow where
  embedding : Option (List ℚ)
  title : String
  summary : String
deriving DecidableEq

/-- A result dictionary produced by `get_related_content` (no
`key_topics` or `quality_score` fields on this endpoint). -/
structure RelatedResult where
  id : ℤ
  url : String
  title : String
  summary : String
  content_type : String
  similarity : ℚ
deriving DecidableEq

/-- The result built from an RPC row on the RPC path of
`get_related_content`. -/
def relRpcToResult (r : RpcRow) : RelatedResult :=
  { id := r.id, url := r.url, title := r.title, summary := r.summary,
    content_type := r.content_type, similarity := roundTo3 r.similarity }

/-- The per-row body of the manual fallback loop of
`get_related_content`: rows with a falsy embedding are skipped (there is
no length check on this path — `_cosine_similarity` itself returns 0 on
a length mismatch), and the threshold `0.3` is strict here
(`similarity > 0.3`). -/
def relatedCandidate (core : List ℚ → List ℚ → ℚ) (source_embedding : List ℚ)
    (r : DbRow) : Option RelatedResult :=
  match r.embedding with
  | none => none
  | some e =>
    if e = [] then none
    else
      let s := cosine_similarity core source_embedding e
      if 3/10 < s then
        some { id := r.id, url := r.url, title := r.title,
               summary := r.summary, content_type := r.content_type,
               similarity := roundTo3 s }
      else none

/-- The manual fallback of `get_related_content`: the server-side query
carries `.neq('id', content_id)`, modelled by filtering the table; rows
with a falsy embedding are skipped (there is no length check here —
`_cosine_similarity` itself returns 0 on a length mismatch); the
threshold `0.3` is strict on this path. -/
def manualRelated (core : List ℚ → List ℚ → ℚ) (content_id : ℤ) (limit : ℕ)
    (source_embedding : List ℚ) (fetch : Except String (List DbRow)) :
    List RelatedResult :=
  match fetch with
  | .error _ => []
  | .ok table =>
    let rows := table.filter (fun r => r.id ≠ content_id)
    let results := rows.filterMap (relatedCandidate core source_embedding)
    (pySortDesc (fun x => x.similarity) results).take limit

/-- `SimpleVectorDB.get_related_content` from `supabase_db.py`.  The
source-row fetch, the RPC call (requested with `match_count = limit + 1`
and threshold `0.3`) and the fallback table fetch are external calls,
given as `Except` inputs.  A raised source fetch hits the outer handler
(`[]`); a missing source or falsy source embedding returns `[]`; RPC
data is filtered of the source id and truncated to `limit`; empty RPC
data or an RPC raise falls through to the manual path. -/
def get_related_content (core : List ℚ → List ℚ → ℚ) (content_id : ℤ)
    (limit : ℕ) (sourceFetch : Except String (List SourceRow))
    (rpc : Except String (List RpcRow))
    (fetch : Except String (List DbRow)) : List RelatedResult :=
  match sourceFetch with
  | .error _ => []
  | .ok srows =>
    match srows with
    | [] => []
    | s0 :: _ =>
      match s0.embedding with
      | none => []
      | some emb =>
        if emb = [] then []
        else
          match rpc with
          | .ok rows =>
            if rows ≠ [] then
              ((rows.filter (fun r => r.id ≠ content_id)).map
                relRpcToResult).take limit
            else manualRelated core content_id limit emb fetch
          | .error _ => manualRelated core content_id limit emb fetch

/-! ### rag_chatbot.py -/

/-- `KnowledgeContext` from `rag_chatbot.py` (the fields used by
confidence and fallback computation; `quality_score` and `similarity`
are Python floats, modelled as `ℚ`). -/
structure KnowledgeContext where
  content : String
  title : String
  url : String
  content_type : String
  quality_score : ℚ
  similarity : ℚ
deriving DecidableEq

/-- Substring test on character lists: does `needle` start `hay`? -/
def listStarts : List Char → List Char → Bool
  | _, [] => true
  | [], _ :: _ => false
  | a :: as, b :: bs => a = b && listStarts as bs

/-- Substring test on character lists: does `needle` occur anywhere in
`hay`? -/
def listHasSub : List Char → List Char → Bool
  | hay, needle =>
    match hay with
    | [] => needle.isEmpty
    | _ :: t => listStarts hay needle || listHasSub t needle

/-- Python `needle in hay` on strings (substring containment). -/
def strContains (hay needle : String) : Bool :=
  listHasSub hay.data needle.data

/-- `RAGChatbot._calculate_confidence` from `rag_chatbot.py`.  Note that
`avg_quality` enters on its raw 1–10 scale multiplied by `0.1`. -/
def calculate_confidence (items : List KnowledgeContext) (response : String) :
    ℚ :=
  if items = [] then 3/10
  else
    let n : ℚ := items.length
    let avg_similarity := (items.map (fun i => i.similarity)).sum / n
    let avg_quality := (items.map (fun i => i.quality_score)).sum / n
    let citation_bonus : ℚ := if strContains response "[Source:" then 1/10 else 0
    let length_factor : ℚ := min 1 ((response.length : ℚ) / 500)
    let confidence :=
      avg_similarity * (4/10) + avg_quality * (1/10) +
        length_factor * (3/10) + citation_bonus
    min (95/100) (max (1/10) confidence)

/-- Modelled from the spec: the confidence formula as the spec sentence
states it, with average quality first normalized to the 0–1 scale and
then weighted by `0.1`.  Kept separate from `calculate_confidence`
(which is translated from the code) so the two can be compared. -/
def specConfidenceC5 (items : List KnowledgeContext) (response : String) : ℚ :=
  if items = [] then 3/10
  else
    let n : ℚ := items.length
    let avg_similarity := (items.map (fun i => i.similarity)).sum / n
    let avg_quality := (items.map (fun i => i.quality_score)).sum / n
    let citation_bonus : ℚ := if strContains response "[Source:" then 1/10 else 0
    let length_factor : ℚ := min 1 ((response.length : ℚ) / 500)
    let confidence :=
      avg_similarity * (4/10) + (avg_quality / 10) * (1/10) +
        length_factor * (3/10) + citation_bonus
    min (95/100) (max (1/10) confidence)

/-- The apostrophe character, used by the literal fallback texts. -/
def apos : String := String.mk [Char.ofNat 39]

/-- Python `sep.join(parts)`. -/
def pyJoin (sep : String) : List String → String
  | [] => ""
  | [x] => x
  | x :: y :: rest => x ++ sep ++ pyJoin sep (y :: rest)

/-- `RAGChatbot._generate_fallback_response` from `rag_chatbot.py`: the
deterministic non-LLM response.  With context it lists the first three
source titles; otherwise it is the generic not-found text.  The strings
are byte-for-byte the f-string literals of the source. -/
def generate_fallback_response (query : String)
    (context_items : List KnowledgeContext) : String :=
  if context_items ≠ [] then
    let sources_info := pyJoin "\n"
      ((context_items.take 3).map
        (fun item => "- " ++ item.title ++ " (" ++ item.content_type ++ ")"))
    "I found some relevant content in your knowledge base related to \"" ++
      query ++ "\":\n\n" ++ sources_info ++ "\n\nHowever, I" ++ apos ++
      "m currently unable to process this information due to a temporary issue. You can view these sources directly to find the information you" ++
      apos ++ "re looking for."
  else
    "I don" ++ apos ++ "t have specific information about \"" ++ query ++
      "\" in your current knowledge base. \n\nYou might want to:\n1. Browse and save more content related to this topic\n2. Use the search function to explore existing content\n3. Check if there are related topics in your knowledge graph\n\nIs there a specific aspect of this topic you" ++
      apos ++ "d like me to help you explore?"

/-- `RAGChatbot._generate_response` from `rag_chatbot.py`, modelled at
the level of one chat turn.  The LLM call `self.llm.ainvoke` is external:
`llm` is its outcome, `.ok (text, tokens)` on success (tokens being the
reported usage, `0` when absent).  Conversation-memory mutation is a
side effect on external state and is not part of the returned value.
Returns `(response_text, tokens_used, confidence)`. -/
def generate_response (query : String) (context_items : List KnowledgeContext)
    (llm : Except String (String × ℕ)) : String × ℕ × ℚ :=
  if context_items = [] then
    match llm with
    | .ok (text, tokens) => (text, tokens, 3/10)
    | .error _ => (generate_fallback_response query [], 0, 1/10)
  else
    match llm with
    | .ok (text, tokens) =>
      (text, tokens, calculate_confidence context_items text)
    | .error _ => (generate_fallback_response query context_items, 0, 2/10)

/-! ### main.py — recommendations -/

/-- A recommendation entry as built by `get_personalized_recommendations`
(the fields consulted by the diversity pass; `recommendation_score` is
abbreviated `score`). -/
structure Rec where
  id : ℤ
  title : String
  content_type : String
  topics : List String
  quality_score : ℤ
  score : ℚ
deriving DecidableEq

/-- One step of the diversity loop of `get_personalized_recommendations`:
the state is `(output so far, seen content types, seen topics)`.  Seen
sets are modelled as lists with Python-set membership; `seen_topics` is
extended by all the topics of the item (`set.update`), and the topic
overlap counts the distinct topics of the item already seen
(`len(set(rec['topics']) & seen_topics)`). -/
def diversityStep (diversity_factor : ℚ)
    (s : List Rec × List String × List String) (rec : Rec) :
    List Rec × List String × List String :=
  let typePenalty : ℚ :=
    if rec.content_type ∈ s.2.1 then diversity_factor else 0
  let topic_overlap : ℚ :=
    ((rec.topics.dedup).filter (fun t => t ∈ s.2.2)).length
  let diversity_penalty :=
    typePenalty + topic_overlap * diversity_factor * (1/2)
  (s.1 ++ [{ rec with score := rec.score - diversity_penalty }],
   s.2.1 ++ [rec.content_type],
   s.2.2 ++ rec.topics)

/-- The diversity pass of `get_personalized_recommendations`
(`main.py`): when `diversity_factor > 0`, a single greedy left-to-right
iteration over the score-sorted list applies the penalties via
`diversityStep`, and the list is re-sorted (stably) by the adjusted
scores afterwards; otherwise the list is returned unchanged. -/
def diversityPass (diversity_factor : ℚ) (recs : List Rec) : List Rec :=
  if 0 < diversity_factor then
    pySortDesc (fun r => r.score)
      (recs.foldl (diversityStep diversity_factor) ([], [], [])).1
  else recs

/-- The penalty the diversity pass charges the `i`-th item of the list,
written in closed form over the items preceding it. -/
def penaltyAt (diversity_factor : ℚ) (recs : List Rec) (i : ℕ) (r : Rec) : ℚ :=
  (if r.content_type ∈ (recs.take i).map (fun x => x.content_type)
   then diversity_factor else 0) +
  (((r.topics.dedup).filter
      (fun t => t ∈ (recs.take i).flatMap (fun x => x.topics))).length : ℚ) *
    diversity_factor * (1/2)

/-! ### main.py — network analysis and export -/

/-- A `processed_content` row as consumed by `analyze_content_network`
and the GraphML export. -/
structure NetItem where
  id : ℤ
  title : String
  content_type : String
  key_topics : List String
  quality_score : ℤ
deriving DecidableEq

/-- Python `set(topics1) & set(topics2)` converted back to a list; the
model fixes the (hash-dependent) set iteration order to first-list
order. -/
def interTopics (t1 t2 : List String) : List String :=
  t1.dedup.filter (fun s => s ∈ t2)

/-- `len(set(t1) | set(t2))`. -/
def unionCount (t1 t2 : List String) : ℕ :=
  (t1.dedup ++ t2.dedup.filter (fun s => ¬ s ∈ t1)).length

/-- An edge of `analyze_content_network`: its `weight` is the topic
similarity `overlap / total_topics` (a rational). -/
structure AnEdge where
  source : ℤ
  target : ℤ
  weight : ℚ
  shared_topics : List String
deriving DecidableEq

/-- The edge the network analysis creates for the ordered pair
`(item1, item2)`, if any: requires `overlap > 0`, `total_topics > 0` and
similarity `overlap / total_topics ≥ 0.2`. -/
def analyzeEdgeOf (x y : NetItem) : Option AnEdge :=
  let overlap : ℕ := (interTopics x.key_topics y.key_topics).length
  let total : ℕ := unionCount x.key_topics y.key_topics
  if 0 < overlap ∧ 0 < total ∧ 1/5 ≤ (overlap : ℚ) / (total : ℚ) then
    some { source := x.id, target := y.id,
           weight := (overlap : ℚ) / (total : ℚ),
           shared_topics := interTopics x.key_topics y.key_topics }
  else none

/-- The double loop `for i, item1 ...: for item2 in data[i+1:]` of
`analyze_content_network` collecting edges. -/
def analyzeEdges : List NetItem → List AnEdge
  | [] => []
  | x :: xs => xs.filterMap (analyzeEdgeOf x) ++ analyzeEdges xs

/-- The adjacency lists built alongside the edges: each edge appends the
target to the source list and the source to the target list, in edge
order (a `defaultdict(list)`, so absent nodes give `[]`). -/
def adjOf (data : List NetItem) (n : ℤ) : List ℤ :=
  (analyzeEdges data).flatMap (fun e =>
    (if e.source = n then [e.target] else []) ++
    (if e.target = n then [e.source] else []))

/-- The recursive `dfs` of `analyze_content_network`, with the state
`(visited, component)` passed explicitly and a fuel bound on recursion
depth (the Python recursion always terminates because `visited` grows;
fuel `number of nodes + 1` is enough, see `dfsF_delta`). -/
def dfsF (adj : ℤ → List ℤ) : ℕ → ℤ → List ℤ × List ℤ → List ℤ × List ℤ
  | 0, _, s => s
  | fuel + 1, n, (visited, component) =>
    if n ∈ visited then (visited, component)
    else (adj n).foldl (fun s nb => dfsF adj fuel nb s)
      (visited ++ [n], component ++ [n])

/-- One iteration of the component loop: skip an already visited node,
otherwise run the DFS with a fresh component and collect it when
non-empty. -/
def componentStep (adj : ℤ → List ℤ) (fuel : ℕ)
    (s : List ℤ × List (List ℤ)) (n : ℤ) : List ℤ × List (List ℤ) :=
  if n ∈ s.1 then s
  else
    let r := dfsF adj fuel n (s.1, [])
    if r.2 = [] then (r.1, s.2) else (r.1, s.2 ++ [r.2])

/-- The connected-components loop of `analyze_content_network`: iterate
the node ids (dictionary keys — for a corpus with distinct ids this is
the fetched row order), running a DFS from every not-yet-visited node
and collecting the non-empty components.  The fuel bounds the DFS
recursion depth; `number of nodes + 1` is enough because every level of
nesting visits a new node. -/
def netComponents (data : List NetItem) : List (List ℤ) :=
  let ids := data.map (fun x => x.id)
  (ids.foldl (componentStep (adjOf data) (ids.length + 1)) ([], [])).2

/-- A community record of `analyze_content_network` (its `size` and
`nodes` fields; the presentational characteristics — content-type
frequency table, top-3 topics, average quality — are not consulted by
any claim and are omitted from the record). -/
structure Community where
  size : ℕ
  nodes : List ℤ
deriving DecidableEq

/-- The community loop of `analyze_content_network`: every component of
size at least 3 is reported as a community. -/
def netCommunities (data : List NetItem) : List Community :=
  (netComponents data).foldl
    (fun acc comp =>
      if 3 ≤ comp.length then acc ++ [⟨comp.length, comp⟩] else acc)
    []

/-- An edge of the GraphML branch of `export_in_multiple_formats`: node
ids are stringified and the `weight` is the raw topic-overlap count. -/
structure GmlEdge where
  source : String
  target : String
  weight : ℕ
  shared_topics : List String
deriving DecidableEq

/-- The edge the GraphML export creates for an ordered pair, if any:
requires only `overlap > 0`. -/
def gmlEdgeOf (x y : NetItem) : Option GmlEdge :=
  let overlap : ℕ := (interTopics x.key_topics y.key_topics).length
  if 0 < overlap then
    some { source := toString x.id, target := toString y.id,
           weight := overlap,
           shared_topics := interTopics x.key_topics y.key_topics }
  else none

/-- The double pair loop of the GraphML export collecting edges. -/
def gmlEdges : List NetItem → List GmlEdge
  | [] => []
  | x :: xs => xs.filterMap (gmlEdgeOf x) ++ gmlEdges xs

/-! ### Concrete witness data

`qaVec` and `ebVec` are 1536-dimensional integer vectors whose norms are
both exactly 2500 and whose dot product is exactly 751·2500, so their
true cosine similarity is the rational 751/2500 = 0.3004 (certified via
`dot` in the theorems below; 5685999 = 2383² + 85² + 9² + 2² makes the
second norm come out square). -/

def qaVec : List ℚ := 2500 :: List.replicate 1535 0

def ebVec : List ℚ := 751 :: 2383 :: 85 :: 9 :: 2 :: List.replicate 1531 0

/-- The cosine core instantiated with the constant 751/2500: at the pair
`(qaVec, ebVec)` this is the true value of `dot a b / (norm a * norm b)`
(see `cosine_qa_eb`), and it is only ever applied to that pair in the
counterexample below. -/
def coreC2 : List ℚ → List ℚ → ℚ := fun _ _ => 751/2500

/-! ### Helper lemmas -/

theorem dot_replicate_zero_left (n : ℕ) (ys : List ℚ) :
    dot (List.replicate n 0) ys = 0 := by
  induction n generalizing ys with
  | zero => simp [dot]
  | succ m ih =>
    cases ys with
    | nil => simp [List.replicate_succ, dot]
    | cons y ys => simp [List.replicate_succ, dot, ih]

theorem dot_qa_qa : dot qaVec qaVec = 2500 * 2500 := by
  have h : dot qaVec qaVec =
      2500 * 2500 + dot (List.replicate 1535 0) (List.replicate 1535 0) := rfl
  rw [h, dot_replicate_zero_left]
  ring

theorem dot_eb_eb : dot ebVec ebVec = 2500 * 2500 := by
  have h : dot ebVec ebVec =
      751 * 751 + (2383 * 2383 + (85 * 85 + (9 * 9 + (2 * 2 +
        dot (List.replicate 1531 0) (List.replicate 1531 0))))) := rfl
  rw [h, dot_replicate_zero_left]
  norm_num

theorem dot_qa_eb : dot qaVec ebVec = (751/2500) * (2500 * 2500) := by
  have h : dot qaVec ebVec =
      2500 * 751 + dot (List.replicate 1535 0)
        (2383 :: 85 :: 9 :: 2 :: List.replicate 1531 0) := rfl
  rw [h, dot_replicate_zero_left]
  norm_num

theorem qaVec_length : qaVec.length = 1536 := by
  simp only [qaVec, List.length_cons, List.length_replicate]

theorem ebVec_length : ebVec.length = 1536 := by
  simp only [ebVec, List.length_cons, List.length_replicate]

theorem zeroVec_length : zeroVec.length = 1536 := by
  simp only [zeroVec, List.length_replicate]

theorem qaVec_ne_nil : qaVec ≠ [] := by
  unfold qaVec
  exact List.cons_ne_nil _ _

theorem ebVec_ne_nil : ebVec ≠ [] := by
  unfold ebVec
  exact List.cons_ne_nil _ _

theorem zeroVec_ne_nil : zeroVec ≠ [] := by
  simp only [zeroVec, ne_eq, List.replicate_eq_nil_iff]
  norm_num

theorem dot_zeroVec_left (ys : List ℚ) : dot zeroVec ys = 0 :=
  dot_replicate_zero_left 1536 ys

theorem cosine_zeroVec_left (core : List ℚ → List ℚ → ℚ) (b : List ℚ) :
    cosine_similarity core zeroVec b = 0 := by
  unfold cosine_similarity
  by_cases h : zeroVec.length = b.length
  · rw [if_neg (by simp [h])]
    rw [if_neg (by rw [zeroVec_length]; norm_num)]
    rw [if_pos (Or.inl (dot_zeroVec_left _))]
  · rw [if_pos h]

theorem cosine_zeroVec_right (core : List ℚ → List ℚ → ℚ) (a : List ℚ) :
    cosine_similarity core a zeroVec = 0 := by
  unfold cosine_similarity
  by_cases h : a.length = zeroVec.length
  · rw [if_neg (by simp [h])]
    by_cases h0 : a.length = 0
    · rw [if_pos h0]
    · rw [if_neg h0]
      rw [if_pos (Or.inr (dot_zeroVec_left _))]
  · rw [if_pos h]

/-- The degenerate-guard value of `_cosine_similarity` at `qaVec, ebVec`
is the abstract core value, and `coreC2` supplies the true cosine there
(`dot_qa_eb`, `dot_qa_qa`, `dot_eb_eb`: dot = 751/2500 · 2500 · 2500 and
both norms are 2500). -/
theorem cosine_qa_eb :
    cosine_similarity coreC2 qaVec ebVec = 751/2500 := by
  unfold cosine_similarity
  rw [if_neg (by rw [qaVec_length, ebVec_length]; simp)]
  rw [if_neg (by rw [qaVec_length]; norm_num)]
  rw [if_neg (by rw [dot_qa_qa, dot_eb_eb]; push_neg; norm_num)]
  rfl

theorem roundTo3_ge (x : ℚ) : x - 1/2000 ≤ roundTo3 x := by
  have h := abs_sub_round (x * 1000)
  rw [abs_le] at h
  unfold roundTo3
  have h2 := h.2
  linarith

theorem roundTo3_le (x : ℚ) : roundTo3 x ≤ x + 1/2000 := by
  have h := abs_sub_round (x * 1000)
  rw [abs_le] at h
  unfold roundTo3
  have h1 := h.1
  linarith

theorem roundTo3_mono {x y : ℚ} (h : x ≤ y) : roundTo3 x ≤ roundTo3 y := by
  unfold roundTo3
  have hr : round (x * 1000) ≤ round (y * 1000) := by
    rw [round_eq, round_eq]
    exact Int.floor_le_floor (by linarith)
  have hr' : ((round (x * 1000) : ℤ) : ℚ) ≤ ((round (y * 1000) : ℤ) : ℚ) := by
    exact_mod_cast hr
  linarith

theorem roundTo3_grid (k : ℤ) : roundTo3 ((k : ℚ) / 1000) = (k : ℚ) / 1000 := by
  unfold roundTo3
  have h : ((k : ℚ) / 1000) * 1000 = (k : ℚ) := by
    field_simp
  rw [h, round_intCast]

/-! ### C1 — embedding generation and the zero-vector fallback -/

/-- C1 counterexample.  The claim says `generate_embedding` either
returns a provider vector or fails explicitly and never substitutes a
zero vector that callers treat as valid.  In fact, when the provider
raises, `generate_embedding` returns `[0.0] * 1536`; `store_content`
then stores exactly that zero vector and reports success; and
`semantic_search` accepts a zero query vector as valid (it passes the
dimension guard and proceeds to return RPC results). -/
theorem C1_counterexample :
    generate_embedding true true (.error "OpenAI embedding failed") = zeroVec ∧
    zeroVec = List.replicate 1536 0 ∧
    store_content
        ⟨"https://a", "T", "S", "C", "Article", ["ai"], 7, "llm",
          "2024-01-01T00:00:00", "h", none⟩
        true true (.error "OpenAI embedding failed") (.ok true) =
      (true,
        ⟨"https://a", "T", "S", "C", "Article", ["ai"], 7, "llm",
          "2024-01-01T00:00:00", "h", some zeroVec⟩) ∧
    semantic_search (fun _ _ => 0) zeroVec 5 (3/10)
        (.ok [⟨21, "u", "t", "s", "Article", some ["ai"], 7, 1/2⟩])
        (.ok []) =
      [⟨21, "u", "t", "s", "Article", ["ai"], 7, 1/2⟩] := by
  refine ⟨rfl, rfl, rfl, ?_⟩
  have hr : roundTo3 (1/2) = 1/2 := by
    have h := roundTo3_grid 500
    norm_num at h
    exact h
  unfold semantic_search
  rw [if_neg (by rw [zeroVec_length]; simp [zeroVec_ne_nil])]
  show List.map rpcRowToResult [⟨21, "u", "t", "s", "Article", some ["ai"], 7, 1/2⟩] = _
  simp only [List.map_cons, List.map_nil, rpcRowToResult, hr, Option.getD_some]

/-- C1 as amended: `generate_embedding` always returns a 1536-length
vector; either it is the provider vector (provider consulted and
successful with the right dimension) or it is the zero vector — there is
no explicit failure.  `store_content` writes the generated vector into
an item that lacked one, and cosine similarity against the zero vector
is normalized to 0 on either side. -/
theorem C1_amended (uo av : Bool) (p : Except String (List ℚ)) :
    (generate_embedding uo av p).length = 1536 ∧
    (generate_embedding uo av p = zeroVec ∨
      ((uo && av) = true ∧ p = Except.ok (generate_embedding uo av p))) ∧
    (∀ (item : ContentItem) (outc : Except String Bool),
      store_content { item with embedding := none } uo av p outc =
        ((match outc with | .ok b => b | .error _ => false),
         { item with embedding := some (generate_embedding uo av p) })) ∧
    (∀ core b, cosine_similarity core zeroVec b = 0) ∧
    (∀ core a, cosine_similarity core a zeroVec = 0) := by
  have hlen : (generate_embedding uo av p).length = 1536 := by
    unfold generate_embedding
    by_cases hb : (uo && av) = true
    · rw [if_pos hb]
      cases p with
      | error e => exact zeroVec_length
      | ok emb =>
        show (if emb.length ≠ 1536 then zeroVec else emb).length = 1536
        by_cases h : emb.length = 1536
        · rw [if_neg (by simp [h])]
          exact h
        · rw [if_pos (by simp [h])]
          exact zeroVec_length
    · rw [if_neg hb]
      exact zeroVec_length
  refine ⟨hlen, ?_, ?_, ?_, ?_⟩
  · by_cases hb : (uo && av) = true
    · cases p with
      | error e =>
        left
        unfold generate_embedding
        rw [if_pos hb]
      | ok emb =>
        by_cases h : emb.length = 1536
        · right
          have hg : generate_embedding uo av (Except.ok emb) = emb := by
            unfold generate_embedding
            rw [if_pos hb]
            show (if emb.length ≠ 1536 then zeroVec else emb) = emb
            rw [if_neg (by simp [h])]
          exact ⟨hb, by rw [hg]⟩
        · left
          unfold generate_embedding
          rw [if_pos hb]
          show (if emb.length ≠ 1536 then zeroVec else emb) = zeroVec
          rw [if_pos (by simp [h])]
    · left
      unfold generate_embedding
      rw [if_neg hb]
  · intro item outc
    cases outc <;> rfl
  · exact fun core b => cosine_zeroVec_left core b
  · exact fun core a => cosine_zeroVec_right core a

/-! ### Substring helper lemmas -/

theorem listStarts_nil_right (x : List Char) : listStarts x [] = true := by
  cases x <;> rfl

theorem listHasSub_nil_right (x : List Char) : listHasSub x [] = true := by
  cases x with
  | nil => rfl
  | cons a t =>
    show (listStarts (a :: t) [] || listHasSub t []) = true
    rw [listStarts_nil_right]
    rfl

theorem listStarts_append (n t : List Char) : listStarts (n ++ t) n = true := by
  induction n with
  | nil => exact listStarts_nil_right t
  | cons a as ih => simp [listStarts, ih]

theorem listHasSub_of_starts {h n : List Char} (hs : listStarts h n = true) :
    listHasSub h n = true := by
  cases h with
  | nil =>
    cases n with
    | nil => rfl
    | cons b bs => exact absurd hs (by simp [listStarts])
  | cons x t =>
    show (listStarts (x :: t) n || listHasSub t n) = true
    rw [hs]
    rfl

theorem listHasSub_cons (a : Char) {t n : List Char}
    (hh : listHasSub t n = true) : listHasSub (a :: t) n = true := by
  show (listStarts (a :: t) n || listHasSub t n) = true
  rw [hh]
  simp

theorem listHasSub_prepend (s : List Char) {h n : List Char}
    (hh : listHasSub h n = true) : listHasSub (s ++ h) n = true := by
  induction s with
  | nil => exact hh
  | cons a as ih => exact listHasSub_cons a ih

theorem listStarts_mono {x n : List Char} (y : List Char)
    (h : listStarts x n = true) : listStarts (x ++ y) n = true := by
  induction n generalizing x with
  | nil => exact listStarts_nil_right _
  | cons b bs ih =>
    cases x with
    | nil => exact absurd h (by simp [listStarts])
    | cons a as =>
      simp only [listStarts, Bool.and_eq_true] at h
      simp only [List.cons_append, listStarts, Bool.and_eq_true]
      exact ⟨h.1, ih h.2⟩

theorem listHasSub_append_left {x n : List Char} (y : List Char)
    (h : listHasSub x n = true) : listHasSub (x ++ y) n = true := by
  induction x with
  | nil =>
    rcases n with _ | ⟨b, bs⟩
    · exact listHasSub_nil_right _
    · exact absurd h (by simp [listHasSub, List.isEmpty])
  | cons a as ih =>
    have h' : (listStarts (a :: as) n || listHasSub as n) = true := h
    rcases Bool.or_eq_true_iff.mp h' with hs | ht
    · exact listHasSub_of_starts (listStarts_mono y hs)
    · exact listHasSub_cons a (ih ht)

theorem strContains_self (n : String) : strContains n n = true := by
  unfold strContains
  apply listHasSub_of_starts
  have h := listStarts_append n.data []
  simpa using h

theorem strContains_append_right (a b n : String)
    (h : strContains b n = true) : strContains (a ++ b) n = true := by
  unfold strContains at *
  rw [String.data_append]
  exact listHasSub_prepend a.data h

theorem strContains_append_left (a b n : String)
    (h : strContains a n = true) : strContains (a ++ b) n = true := by
  unfold strContains at *
  rw [String.data_append]
  exact listHasSub_append_left b.data h

theorem pyJoin_mem_decomp (sep : String) (ls : List String) (x : String)
    (hx : x ∈ ls) : ∃ s t : String, pyJoin sep ls = s ++ x ++ t := by
  induction ls with
  | nil => cases hx
  | cons y ys ih =>
    cases ys with
    | nil =>
      rcases List.mem_singleton.mp hx with rfl
      exact ⟨"", "", by simp [pyJoin]⟩
    | cons z zs =>
      rcases List.mem_cons.mp hx with rfl | hmem
      · refine ⟨"", sep ++ pyJoin sep (z :: zs), ?_⟩
        have h1 : pyJoin sep (x :: z :: zs) = x ++ sep ++ pyJoin sep (z :: zs) := rfl
        rw [h1]
        apply String.ext
        simp [String.data_append]
      · rcases ih hmem with ⟨s, t, hst⟩
        refine ⟨y ++ sep ++ s, t, ?_⟩
        have h1 : pyJoin sep (y :: z :: zs) = y ++ sep ++ pyJoin sep (z :: zs) := rfl
        rw [h1, hst]
        apply String.ext
        simp [String.data_append]

/-! ### C5 — chat confidence formula -/

/-- C5 counterexample.  The claim states the quality term of the
confidence is the average quality normalized to the 0–1 scale and then
weighted by 0.1 (`specConfidenceC5`); the code multiplies the raw 1–10
average quality by 0.1.  For a single context item of quality 10 and
similarity 0 with an empty response, the code yields the upper clamp
0.95 while the claimed formula yields the lower clamp 0.1. -/
theorem C5_counterexample :
    calculate_confidence [⟨"", "T", "u", "Article", 10, 0⟩] "" = 95/100 ∧
    specConfidenceC5 [⟨"", "T", "u", "Article", 10, 0⟩] "" = 1/10 ∧
    (95:ℚ)/100 ≠ 1/10 := by
  refine ⟨?_, ?_, by norm_num⟩
  · unfold calculate_confidence
    rw [if_neg (by simp)]
    norm_num [strContains, listHasSub, String.length]
  · unfold specConfidenceC5
    rw [if_neg (by simp)]
    norm_num [strContains, listHasSub, String.length]

/-- C5 as amended: for a successful generation with context, the chat
confidence is `avg(similarity)*0.4 + avg(quality on its raw 1–10
scale)*0.1 + min(1, response_length/500)*0.3 + (0.1 if the response
contains "[Source:" else 0)`, clamped to `[0.1, 0.95]`; without context
the confidence is exactly 0.3; and the clamp bounds always hold. -/
theorem C5_amended (items : List KnowledgeContext) (txt : String)
    (query : String) (tokens : ℕ) (hne : items ≠ []) :
    (generate_response query items (.ok (txt, tokens))).2.2 =
      min (95/100) (max (1/10)
        (((items.map (fun i => i.similarity)).sum / items.length) * (4/10) +
         ((items.map (fun i => i.quality_score)).sum / items.length) * (1/10) +
         min 1 ((txt.length : ℚ) / 500) * (3/10) +
         (if strContains txt "[Source:" then (1:ℚ)/10 else 0))) ∧
    (generate_response query [] (.ok (txt, tokens))).2.2 = 3/10 ∧
    calculate_confidence [] txt = 3/10 ∧
    1/10 ≤ calculate_confidence items txt ∧
    calculate_confidence items txt ≤ 95/100 := by
  have hconf : calculate_confidence items txt =
      min (95/100) (max (1/10)
        (((items.map (fun i => i.similarity)).sum / items.length) * (4/10) +
         ((items.map (fun i => i.quality_score)).sum / items.length) * (1/10) +
         min 1 ((txt.length : ℚ) / 500) * (3/10) +
         (if strContains txt "[Source:" then (1:ℚ)/10 else 0))) := by
    unfold calculate_confidence
    rw [if_neg hne]
  refine ⟨?_, rfl, rfl, ?_, ?_⟩
  · unfold generate_response
    rw [if_neg hne]
    exact hconf
  · unfold calculate_confidence
    rw [if_neg hne]
    exact le_min (by norm_num) (le_max_left _ _)
  · unfold calculate_confidence
    rw [if_neg hne]
    exact min_le_left _ _

/-! ### C9 — deterministic fallback on total provider failure -/

/-- C9: when the answer-generation provider fails, the chat response is
exactly the deterministic fallback text of
`generate_fallback_response` (which, when context exists, lists the
titles of the first three retrieved sources — each such title occurs in
the response), the confidence is at most 0.3 (0.2 with context, 0.1
without), and the response does not depend on the provider error, so
the raw error is never surfaced as the chat response. -/
theorem C9_fallback_on_provider_failure (query : String)
    (ctx : List KnowledgeContext) (e : String) :
    (generate_response query ctx (.error e)).1 =
      generate_fallback_response query ctx ∧
    (generate_response query ctx (.error e)).2.2 ≤ 3/10 ∧
    (∀ e', (generate_response query ctx (.error e')).1 =
      (generate_response query ctx (.error e)).1) ∧
    (∀ item ∈ ctx.take 3,
      strContains (generate_response query ctx (.error e)).1 item.title
        = true) := by
  have hresp : ∀ e' : String,
      (generate_response query ctx (.error e')).1 =
        generate_fallback_response query ctx := by
    intro e'
    unfold generate_response
    by_cases hc : ctx = []
    · rw [if_pos hc, hc]
    · rw [if_neg hc]
  have hconf : (generate_response query ctx (.error e)).2.2 ≤ 3/10 := by
    unfold generate_response
    by_cases hc : ctx = []
    · rw [if_pos hc]
      norm_num
    · rw [if_neg hc]
      norm_num
  refine ⟨hresp e, hconf, fun e' => (hresp e').trans (hresp e).symm, ?_⟩
  intro item hmem
  rw [hresp e]
  have hne : ctx ≠ [] := by
    intro hnil
    rw [hnil] at hmem
    cases hmem
  have hline : strContains
      ("- " ++ item.title ++ " (" ++ item.content_type ++ ")")
      item.title = true := by
    apply strContains_append_left
    apply strContains_append_left
    apply strContains_append_left
    exact strContains_append_right _ _ _ (strContains_self _)
  have hmapmem : ("- " ++ item.title ++ " (" ++ item.content_type ++ ")") ∈
      ((ctx.take 3).map
        (fun it => "- " ++ it.title ++ " (" ++ it.content_type ++ ")")) :=
    List.mem_map_of_mem _ hmem
  rcases pyJoin_mem_decomp "\n" _ _ hmapmem with ⟨s, t, hst⟩
  unfold generate_fallback_response
  rw [if_pos hne]
  simp only []
  rw [hst]
  apply strContains_append_left
  apply strContains_append_left
  apply strContains_append_left
  apply strContains_append_left
  apply strContains_append_left
  apply strContains_append_right
  apply strContains_append_left
  apply strContains_append_right
  exact hline

/-! ### Sorting and candidate helper lemmas -/

theorem pySortDesc_sorted {α : Type} (key : α → ℚ) (l : List α) :
    List.Sorted (byKeyDesc key) (pySortDesc key l) :=
  List.sorted_insertionSort _ l

theorem pySortDesc_mem {α : Type} {key : α → ℚ} {l : List α} {a : α} :
    a ∈ pySortDesc key l ↔ a ∈ l :=
  List.mem_insertionSort _

theorem sorted_take {α : Type} {r : α → α → Prop} {l : List α}
    (h : List.Sorted r l) (n : ℕ) : List.Sorted r (l.take n) :=
  h.sublist (List.take_sublist n l)

theorem scanCandidate_some_sim {core : List ℚ → List ℚ → ℚ} {q : List ℚ}
    {thr : ℚ} {row : DbRow} {res : SearchResult}
    (h : scanCandidate core q thr row = some res) :
    ∃ s : ℚ, thr ≤ s ∧ res.similarity = roundTo3 s := by
  unfold scanCandidate at h
  cases hemb : row.embedding with
  | none => rw [hemb] at h; cases h
  | some e =>
    rw [hemb] at h
    simp only [] at h
    by_cases hg : e = [] ∨ e.length ≠ 1536
    · rw [if_pos hg] at h; cases h
    · rw [if_neg hg] at h
      by_cases hs : thr ≤ cosine_similarity core q e
      · rw [if_pos hs] at h
        refine ⟨cosine_similarity core q e, hs, ?_⟩
        injection h with h'
        rw [← h']
      · rw [if_neg hs] at h; cases h

theorem relatedCandidate_id {core : List ℚ → List ℚ → ℚ} {emb : List ℚ}
    {row : DbRow} {res : RelatedResult}
    (h : relatedCandidate core emb row = some res) : res.id = row.id := by
  unfold relatedCandidate at h
  cases hemb : row.embedding with
  | none => rw [hemb] at h; cases h
  | some e =>
    rw [hemb] at h
    simp only [] at h
    by_cases hg : e = []
    · rw [if_pos hg] at h; cases h
    · rw [if_neg hg] at h
      by_cases hs : 3/10 < cosine_similarity core emb e
      · rw [if_pos hs] at h
        injection h with h'
        rw [← h']
      · rw [if_neg hs] at h; cases h

/-! ### C6 — graph edge shape on the two-item scenario -/

/-- C6 counterexample.  For the two items with topics `["ai","ml"]` and
`["ai","python"]` the network analysis produces exactly one edge with
`shared_topics = ["ai"]`, but its `weight` field is the similarity
`1/3 = overlap / |union|`, not the overlap count 1 the claim asserts
(and the edge record carries no separate `similarity` field). -/
theorem C6_counterexample :
    analyzeEdges [⟨1, "A", "Article", ["ai", "ml"], 7⟩,
                  ⟨2, "B", "Tutorial", ["ai", "python"], 8⟩] =
      [⟨1, 2, 1/3, ["ai"]⟩] ∧
    ((1 : ℚ)/3 ≠ 1) := by
  refine ⟨?_, by norm_num⟩
  have h1 : interTopics ["ai", "ml"] ["ai", "python"] = ["ai"] := by decide
  have h2 : unionCount ["ai", "ml"] ["ai", "python"] = 3 := by decide
  show List.filterMap (analyzeEdgeOf _) [⟨2, "B", "Tutorial", ["ai", "python"], 8⟩]
      ++ analyzeEdges [⟨2, "B", "Tutorial", ["ai", "python"], 8⟩] = _
  rw [show analyzeEdges [(⟨2, "B", "Tutorial", ["ai", "python"], 8⟩ : NetItem)]
      = [] from rfl]
  rw [List.filterMap_cons]
  rw [show analyzeEdgeOf (⟨1, "A", "Article", ["ai", "ml"], 7⟩ : NetItem)
        ⟨2, "B", "Tutorial", ["ai", "python"], 8⟩ =
      some ⟨1, 2, 1/3, ["ai"]⟩ from by
    unfold analyzeEdgeOf
    rw [h1, h2]
    rw [if_pos (by norm_num)]
    norm_num]
  rfl

/-- C6 as amended: on the two-item scenario, `analyze_content_network`
produces exactly one edge, with `shared_topics = ["ai"]` and `weight`
equal to the topic similarity `overlap / |union| = 1/3`, while the
GraphML export produces exactly one edge with `shared_topics = ["ai"]`
and `weight` equal to the overlap count `1` (on stringified ids).  No
single edge record carries both numbers. -/
theorem C6_amended (i1 i2 : ℤ) (t1 t2 ct1 ct2 : String) (q1 q2 : ℤ) :
    analyzeEdges [⟨i1, t1, ct1, ["ai", "ml"], q1⟩,
                  ⟨i2, t2, ct2, ["ai", "python"], q2⟩] =
      [⟨i1, i2, 1/3, ["ai"]⟩] ∧
    gmlEdges [⟨i1, t1, ct1, ["ai", "ml"], q1⟩,
              ⟨i2, t2, ct2, ["ai", "python"], q2⟩] =
      [⟨toString i1, toString i2, 1, ["ai"]⟩] := by
  have h1 : interTopics ["ai", "ml"] ["ai", "python"] = ["ai"] := by decide
  have h2 : unionCount ["ai", "ml"] ["ai", "python"] = 3 := by decide
  constructor
  · show List.filterMap (analyzeEdgeOf _) [⟨i2, t2, ct2, ["ai", "python"], q2⟩]
        ++ analyzeEdges [⟨i2, t2, ct2, ["ai", "python"], q2⟩] = _
    rw [show analyzeEdges [(⟨i2, t2, ct2, ["ai", "python"], q2⟩ : NetItem)]
        = [] from rfl]
    rw [List.filterMap_cons]
    rw [show analyzeEdgeOf (⟨i1, t1, ct1, ["ai", "ml"], q1⟩ : NetItem)
          ⟨i2, t2, ct2, ["ai", "python"], q2⟩ =
        some ⟨i1, i2, 1/3, ["ai"]⟩ from by
      unfold analyzeEdgeOf
      rw [h1, h2]
      rw [if_pos (by norm_num)]
      norm_num]
    rfl
  · show List.filterMap (gmlEdgeOf _) [⟨i2, t2, ct2, ["ai", "python"], q2⟩]
        ++ gmlEdges [⟨i2, t2, ct2, ["ai", "python"], q2⟩] = _
    rw [show gmlEdges [(⟨i2, t2, ct2, ["ai", "python"], q2⟩ : NetItem)]
        = [] from rfl]
    rw [List.filterMap_cons]
    rw [show gmlEdgeOf (⟨i1, t1, ct1, ["ai", "ml"], q1⟩ : NetItem)
          ⟨i2, t2, ct2, ["ai", "python"], q2⟩ =
        some ⟨toString i1, toString i2, 1, ["ai"]⟩ from by
      unfold gmlEdgeOf
      rw [h1]
      rw [if_pos (by norm_num)]
      rfl]
    rfl

/-! ### C10 — related content excludes the source and respects the limit -/

/-- C10: on every path (RPC with its `limit + 1` over-fetch and source
filtering, or the manual fallback whose query excludes the source id),
`get_related_content` never returns the source item itself and returns
at most `limit` results. -/
theorem C10_related_excludes_source (core : List ℚ → List ℚ → ℚ)
    (cid : ℤ) (lim : ℕ) (sf : Except String (List SourceRow))
    (rpc : Except String (List RpcRow)) (f : Except String (List DbRow)) :
    (∀ r ∈ get_related_content core cid lim sf rpc f, r.id ≠ cid) ∧
    (get_related_content core cid lim sf rpc f).length ≤ lim := by
  have hman : ∀ emb,
      (∀ r ∈ manualRelated core cid lim emb f, r.id ≠ cid) ∧
      (manualRelated core cid lim emb f).length ≤ lim := by
    intro emb
    unfold manualRelated
    cases f with
    | error e => exact ⟨fun r hr => absurd hr (List.not_mem_nil r), by simp⟩
    | ok table =>
      simp only []
      constructor
      · intro r hr
        have hr' := List.mem_of_mem_take hr
        rw [pySortDesc_mem] at hr'
        rcases List.mem_filterMap.mp hr' with ⟨row, hrow, hsome⟩
        have hid := relatedCandidate_id hsome
        have hrowf := (List.mem_filter.mp hrow).2
        rw [hid]
        simpa using hrowf
      · exact List.length_take_le _ _
  cases sf with
  | error e => simp [get_related_content]
  | ok srows =>
    cases srows with
    | nil => simp [get_related_content]
    | cons s0 rest =>
      obtain ⟨semb, stitle, ssum⟩ := s0
      cases semb with
      | none => simp [get_related_content]
      | some emb =>
        have hgoal : get_related_content core cid lim
            (.ok (⟨some emb, stitle, ssum⟩ :: rest)) rpc f =
            (if emb = [] then []
             else
               match rpc with
               | .ok rows =>
                 if rows ≠ [] then
                   ((rows.filter (fun r => r.id ≠ cid)).map
                     relRpcToResult).take lim
                 else manualRelated core cid lim emb f
               | .error _ => manualRelated core cid lim emb f) := rfl
        rw [hgoal]
        by_cases he : emb = []
        · rw [if_pos he]
          simp
        · rw [if_neg he]
          cases rpc with
          | error e =>
            have hg2 :
                (match (Except.error e : Except String (List RpcRow)) with
                 | .ok rows =>
                   if rows ≠ [] then
                     ((rows.filter (fun r => r.id ≠ cid)).map
                       relRpcToResult).take lim
                   else manualRelated core cid lim emb f
                 | .error _ => manualRelated core cid lim emb f) =
                manualRelated core cid lim emb f := rfl
            rw [hg2]
            exact hman emb
          | ok rows =>
            have hg2 :
                (match (Except.ok rows : Except String (List RpcRow)) with
                 | .ok rows =>
                   if rows ≠ [] then
                     ((rows.filter (fun r => r.id ≠ cid)).map
                       relRpcToResult).take lim
                   else manualRelated core cid lim emb f
                 | .error _ => manualRelated core cid lim emb f) =
                (if rows ≠ [] then
                   ((rows.filter (fun r => r.id ≠ cid)).map
                     relRpcToResult).take lim
                 else manualRelated core cid lim emb f) := rfl
            rw [hg2]
            by_cases hrows : rows = []
            · rw [if_neg (by simp [hrows])]
              exact hman emb
            · rw [if_pos hrows]
              constructor
              · intro r hr
                have hr' := List.mem_of_mem_take hr
                rcases List.mem_map.mp hr' with ⟨row, hrow, hres⟩
                have hrowf := (List.mem_filter.mp hrow).2
                rw [← hres]
                show row.id ≠ cid
                simpa using hrowf
              · exact List.length_take_le _ _

/-! ### C3 — transparent fallback, empty result on double failure -/

/-- C3: when the RPC raises, `semantic_search` computes exactly the
client-side full scan (for any query embedding that passed the guard),
and `get_related_content` computes exactly its manual fallback; when
both the RPC and the fallback fetch raise, both entry points return the
empty list.  All four functions are total Lean functions, so no
exception can escape to the caller. -/
theorem C3_fallback_then_empty :
    (∀ (core : List ℚ → List ℚ → ℚ) (q : List ℚ) (lim : ℕ) (thr : ℚ)
        (e : String) (fetch : Except String (List DbRow)),
      q ≠ [] → q.length = 1536 →
      semantic_search core q lim thr (.error e) fetch =
        manualScanSearch core q lim thr fetch) ∧
    (∀ (core : List ℚ → List ℚ → ℚ) (q : List ℚ) (lim : ℕ) (thr : ℚ)
        (e e' : String),
      semantic_search core q lim thr (.error e) (.error e') = []) ∧
    (∀ (core : List ℚ → List ℚ → ℚ) (cid : ℤ) (lim : ℕ) (s0 : SourceRow)
        (rest : List SourceRow) (emb : List ℚ) (e : String)
        (fetch : Except String (List DbRow)),
      s0.embedding = some emb → emb ≠ [] →
      get_related_content core cid lim (.ok (s0 :: rest)) (.error e) fetch =
        manualRelated core cid lim emb fetch) ∧
    (∀ (core : List ℚ → List ℚ → ℚ) (cid : ℤ) (lim : ℕ)
        (sf : Except String (List SourceRow)) (e e' : String),
      get_related_content core cid lim sf (.error e) (.error e') = []) := by
  refine ⟨?_, ?_, ?_, ?_⟩
  · intro core q lim thr e fetch hq hlen
    unfold semantic_search
    rw [if_neg (by simp [hq, hlen])]
  · intro core q lim thr e e'
    unfold semantic_search
    by_cases hg : q = [] ∨ q.length ≠ 1536
    · rw [if_pos hg]
    · rw [if_neg hg]
      rfl
  · intro core cid lim s0 rest emb e fetch hemb hne
    obtain ⟨semb, stitle, ssum⟩ := s0
    have hemb' : semb = some emb := hemb
    subst hemb'
    have hgoal : get_related_content core cid lim
        (.ok (⟨some emb, stitle, ssum⟩ :: rest)) (.error e) fetch =
        (if emb = [] then [] else manualRelated core cid lim emb fetch) := rfl
    rw [hgoal, if_neg hne]
  · intro core cid lim sf e e'
    cases sf with
    | error _ => rfl
    | ok srows =>
      cases srows with
      | nil => rfl
      | cons s0 rest =>
        obtain ⟨semb, stitle, ssum⟩ := s0
        cases semb with
        | none => rfl
        | some emb =>
          have hgoal : get_related_content core cid lim
              (.ok (⟨some emb, stitle, ssum⟩ :: rest)) (.error e) (.error e') =
              (if emb = [] then [] else manualRelated core cid lim emb (.error e')) := rfl
          rw [hgoal]
          have hm : manualRelated core cid lim emb (.error e') = ([] : List RelatedResult) := rfl
          rw [hm]
          simp

/-! ### Branch equations for semantic_search -/

theorem semantic_search_invalid (core : List ℚ → List ℚ → ℚ) (q : List ℚ)
    (lim : ℕ) (thr : ℚ) (rpc : Except String (List RpcRow))
    (fetch : Except String (List DbRow)) (hg : q = [] ∨ q.length ≠ 1536) :
    semantic_search core q lim thr rpc fetch = [] := by
  unfold semantic_search
  rw [if_pos hg]

theorem semantic_search_rpc_ok (core : List ℚ → List ℚ → ℚ) (q : List ℚ)
    (lim : ℕ) (thr : ℚ) (rows : List RpcRow)
    (fetch : Except String (List DbRow)) (hq1 : q ≠ []) (hq2 : q.length = 1536) :
    semantic_search core q lim thr (.ok rows) fetch =
      if rows ≠ [] then rows.map rpcRowToResult else [] := by
  unfold semantic_search
  rw [if_neg (by simp [hq1, hq2])]

theorem semantic_search_rpc_error (core : List ℚ → List ℚ → ℚ) (q : List ℚ)
    (lim : ℕ) (thr : ℚ) (e : String) (fetch : Except String (List DbRow))
    (hq1 : q ≠ []) (hq2 : q.length = 1536) :
    semantic_search core q lim thr (.error e) fetch =
      manualScanSearch core q lim thr fetch := by
  unfold semantic_search
  rw [if_neg (by simp [hq1, hq2])]

theorem manualScanSearch_ok (core : List ℚ → List ℚ → ℚ) (q : List ℚ)
    (lim : ℕ) (thr : ℚ) (table : List DbRow) :
    manualScanSearch core q lim thr (.ok table) =
      if table.filter (fun r => r.embedding ≠ none) = [] then []
      else
        (pySortDesc (fun x => x.similarity)
          (manualScanCandidates core q thr
            (table.filter (fun r => r.embedding ≠ none)))).take lim := rfl

theorem manualScanSearch_error (core : List ℚ → List ℚ → ℚ) (q : List ℚ)
    (lim : ℕ) (thr : ℚ) (e : String) :
    manualScanSearch core q lim thr (.error e) = [] := rfl

/-! ### C2 — at most k results, thresholding, and rounding -/

/-- C2 counterexample.  With threshold `0.3001`, an RPC raise, and one
stored row whose true cosine similarity to the query is exactly
`0.3004 = 751/2500` (the `coreC2` value, certified by the `dot`
equations `dot_qa_eb`, `dot_qa_qa` and `dot_eb_eb`: both norms are 2500),
`semantic_search` passes the `similarity >= threshold` filter but stores
`round(0.3004, 3) = 0.3` in the returned result, so the returned
similarity is strictly below the requested threshold. -/
theorem C2_counterexample :
    semantic_search coreC2 qaVec 20 (3001/10000) (.error "RPC raised")
        (.ok [⟨11, "u", "t", "s", "Article", some ["ai"], 7, some ebVec⟩]) =
      [⟨11, "u", "t", "s", "Article", ["ai"], 7, 3/10⟩] ∧
    (3 : ℚ)/10 < 3001/10000 ∧
    dot qaVec ebVec = (751/2500) * (2500 * 2500) ∧
    dot qaVec qaVec = 2500 * 2500 ∧
    dot ebVec ebVec = 2500 * 2500 := by
  refine ⟨?_, by norm_num, dot_qa_eb, dot_qa_qa, dot_eb_eb⟩
  rw [semantic_search_rpc_error _ _ _ _ _ _ qaVec_ne_nil qaVec_length]
  rw [manualScanSearch_ok]
  have hfil : (([⟨11, "u", "t", "s", "Article", some ["ai"], 7, some ebVec⟩] :
      List DbRow).filter (fun r => r.embedding ≠ none)) =
      [⟨11, "u", "t", "s", "Article", some ["ai"], 7, some ebVec⟩] := rfl
  rw [hfil]
  rw [if_neg (List.cons_ne_nil _ _)]
  have hround : roundTo3 (751/2500) = 3/10 := by
    unfold roundTo3
    norm_num [round_eq]
  have hcand : scanCandidate coreC2 qaVec (3001/10000)
      ⟨11, "u", "t", "s", "Article", some ["ai"], 7, some ebVec⟩ =
      some ⟨11, "u", "t", "s", "Article", ["ai"], 7, 3/10⟩ := by
    have hstep : scanCandidate coreC2 qaVec (3001/10000)
        ⟨11, "u", "t", "s", "Article", some ["ai"], 7, some ebVec⟩ =
        (if ebVec = [] ∨ ebVec.length ≠ 1536 then none
         else if (3001 : ℚ)/10000 ≤ cosine_similarity coreC2 qaVec ebVec then
           some ⟨11, "u", "t", "s", "Article", ["ai"], 7,
             roundTo3 (cosine_similarity coreC2 qaVec ebVec)⟩
         else none) := rfl
    rw [hstep]
    rw [if_neg (by
      rw [ebVec_length]
      simp [ebVec_ne_nil])]
    rw [cosine_qa_eb]
    rw [if_pos (by norm_num)]
    rw [hround]
  have hcands : manualScanCandidates coreC2 qaVec (3001/10000)
      [⟨11, "u", "t", "s", "Article", some ["ai"], 7, some ebVec⟩] =
      [⟨11, "u", "t", "s", "Article", ["ai"], 7, 3/10⟩] := by
    unfold manualScanCandidates
    rw [List.filterMap_cons, hcand, List.filterMap_nil]
  rw [hcands]
  rfl

/-- C2 as amended: `semantic_search` returns at most `limit` results on
both paths; every returned result arises from an underlying similarity
at least (RPC: strictly above) the threshold, so its recorded 3-decimal
rounding is at least `threshold - 1/2000`; and whenever the threshold is
a multiple of 0.001 (as the default 0.3 is), every recorded similarity
is at least the threshold.  The RPC outcome is assumed to satisfy the
contract of the SQL function shipped in the source
(`matchRpcContract`). -/
theorem C2_amended (core : List ℚ → List ℚ → ℚ) (q : List ℚ) (lim : ℕ)
    (thr : ℚ) (rpc : Except String (List RpcRow))
    (fetch : Except String (List DbRow))
    (hrpc : ∀ rows, rpc = Except.ok rows → matchRpcContract rows lim thr) :
    (semantic_search core q lim thr rpc fetch).length ≤ lim ∧
    (∀ r ∈ semantic_search core q lim thr rpc fetch,
      thr - 1/2000 ≤ r.similarity) ∧
    (∀ k : ℤ, thr = (k : ℚ)/1000 →
      ∀ r ∈ semantic_search core q lim thr rpc fetch,
        thr ≤ r.similarity) := by
  by_cases hg : q = [] ∨ q.length ≠ 1536
  · rw [semantic_search_invalid core q lim thr rpc fetch hg]
    simp
  · push_neg at hg
    cases rpc with
    | ok rows =>
      obtain ⟨hlen, hthr, _⟩ := hrpc rows rfl
      rw [semantic_search_rpc_ok core q lim thr rows fetch hg.1 hg.2]
      by_cases hrows : rows = []
      · rw [if_neg (by simp [hrows])]
        simp
      · rw [if_pos hrows]
        refine ⟨by rw [List.length_map]; exact hlen, ?_, ?_⟩
        · intro r hr
          rcases List.mem_map.mp hr with ⟨row, hrow, hres⟩
          have h1 : thr < row.similarity := hthr row hrow
          have h2 := roundTo3_ge row.similarity
          have h3 : r.similarity = roundTo3 row.similarity := by
            rw [← hres]
            rfl
          rw [h3]
          linarith
        · intro k hk r hr
          rcases List.mem_map.mp hr with ⟨row, hrow, hres⟩
          have h1 : thr < row.similarity := hthr row hrow
          have h3 : r.similarity = roundTo3 row.similarity := by
            rw [← hres]
            rfl
          rw [h3]
          calc thr = roundTo3 thr := by rw [hk, roundTo3_grid]
            _ ≤ roundTo3 row.similarity := roundTo3_mono (le_of_lt h1)
    | error e =>
      rw [semantic_search_rpc_error core q lim thr e fetch hg.1 hg.2]
      cases fetch with
      | error e' =>
        rw [manualScanSearch_error]
        simp
      | ok table =>
        rw [manualScanSearch_ok]
        by_cases hrows : table.filter (fun r => r.embedding ≠ none) = []
        · rw [if_pos hrows]
          simp
        · rw [if_neg hrows]
          refine ⟨List.length_take_le _ _, ?_, ?_⟩
          · intro r hr
            have hr' := List.mem_of_mem_take hr
            rw [pySortDesc_mem] at hr'
            rcases List.mem_filterMap.mp hr' with ⟨row, hrow, hsome⟩
            rcases scanCandidate_some_sim hsome with ⟨sv, hsv, hsim⟩
            have h2 := roundTo3_ge sv
            rw [hsim]
            linarith
          · intro k hk r hr
            have hr' := List.mem_of_mem_take hr
            rw [pySortDesc_mem] at hr'
            rcases List.mem_filterMap.mp hr' with ⟨row, hrow, hsome⟩
            rcases scanCandidate_some_sim hsome with ⟨sv, hsv, hsim⟩
            rw [hsim]
            calc thr = roundTo3 thr := by rw [hk, roundTo3_grid]
              _ ≤ roundTo3 sv := roundTo3_mono hsv

/-- Witness for `C2_amended` at a concrete input (the RPC contract
hypothesis is discharged vacuously by an RPC raise). -/
theorem C2_amended_witness :
    (semantic_search (fun _ _ => 0) qaVec 20 (3/10) (.error "down")
      (.ok [])).length ≤ 20 :=
  (C2_amended (fun _ _ => 0) qaVec 20 (3/10) (.error "down") (.ok [])
    (fun _ h => nomatch h)).1

/-! ### C4 — ordering of the fallback result sequence -/

/-- C4 counterexample.  Two stored rows with identical embeddings (the
zero vector, so both similarities are normalized to 0) tie; the
fetched-first row has the strictly worse quality (1 versus 9) and the
larger id (5 versus 2), so the claimed ordering (ties broken by higher
quality, then lower id) would put the second-fetched row first.  The
code sorts by similarity only with a stable sort, so the output keeps
the fetched order. -/
theorem C4_counterexample :
    semantic_search (fun _ _ => 0) qaVec 20 0 (.error "RPC raised")
        (.ok [⟨5, "u5", "t5", "s5", "Article", some ["x"], 1, some zeroVec⟩,
              ⟨2, "u2", "t2", "s2", "Article", some ["y"], 9, some zeroVec⟩]) =
      [⟨5, "u5", "t5", "s5", "Article", ["x"], 1, 0⟩,
       ⟨2, "u2", "t2", "s2", "Article", ["y"], 9, 0⟩] ∧
    ((0 : ℚ) = 0 ∧ (1 : ℤ) < 9 ∧ (2 : ℤ) < 5) := by
  refine ⟨?_, by norm_num, by norm_num, by norm_num⟩
  rw [semantic_search_rpc_error _ _ _ _ _ _ qaVec_ne_nil qaVec_length]
  rw [manualScanSearch_ok]
  have hround : roundTo3 0 = 0 := by
    unfold roundTo3
    norm_num
  have hguard : ¬(zeroVec = [] ∨ zeroVec.length ≠ 1536) := by
    rw [zeroVec_length]
    simp [zeroVec_ne_nil]
  have hcA : scanCandidate (fun _ _ => 0) qaVec 0
      ⟨5, "u5", "t5", "s5", "Article", some ["x"], 1, some zeroVec⟩ =
      some ⟨5, "u5", "t5", "s5", "Article", ["x"], 1, 0⟩ := by
    have hstep : scanCandidate (fun _ _ => 0) qaVec 0
        ⟨5, "u5", "t5", "s5", "Article", some ["x"], 1, some zeroVec⟩ =
        (if zeroVec = [] ∨ zeroVec.length ≠ 1536 then none
         else if (0 : ℚ) ≤ cosine_similarity (fun _ _ => 0) qaVec zeroVec then
           some ⟨5, "u5", "t5", "s5", "Article", ["x"], 1,
             roundTo3 (cosine_similarity (fun _ _ => 0) qaVec zeroVec)⟩
         else none) := rfl
    rw [hstep, if_neg hguard, cosine_zeroVec_right, if_pos (le_refl 0), hround]
  have hcB : scanCandidate (fun _ _ => 0) qaVec 0
      ⟨2, "u2", "t2", "s2", "Article", some ["y"], 9, some zeroVec⟩ =
      some ⟨2, "u2", "t2", "s2", "Article", ["y"], 9, 0⟩ := by
    have hstep : scanCandidate (fun _ _ => 0) qaVec 0
        ⟨2, "u2", "t2", "s2", "Article", some ["y"], 9, some zeroVec⟩ =
        (if zeroVec = [] ∨ zeroVec.length ≠ 1536 then none
         else if (0 : ℚ) ≤ cosine_similarity (fun _ _ => 0) qaVec zeroVec then
           some ⟨2, "u2", "t2", "s2", "Article", ["y"], 9,
             roundTo3 (cosine_similarity (fun _ _ => 0) qaVec zeroVec)⟩
         else none) := rfl
    rw [hstep, if_neg hguard, cosine_zeroVec_right, if_pos (le_refl 0), hround]
  have hfil : (([⟨5, "u5", "t5", "s5", "Article", some ["x"], 1, some zeroVec⟩,
      ⟨2, "u2", "t2", "s2", "Article", some ["y"], 9, some zeroVec⟩] :
      List DbRow).filter (fun r => r.embedding ≠ none)) =
      [⟨5, "u5", "t5", "s5", "Article", some ["x"], 1, some zeroVec⟩,
       ⟨2, "u2", "t2", "s2", "Article", some ["y"], 9, some zeroVec⟩] := rfl
  rw [hfil, if_neg (List.cons_ne_nil _ _)]
  have hcands : manualScanCandidates (fun _ _ => 0) qaVec 0
      [⟨5, "u5", "t5", "s5", "Article", some ["x"], 1, some zeroVec⟩,
       ⟨2, "u2", "t2", "s2", "Article", some ["y"], 9, some zeroVec⟩] =
      [⟨5, "u5", "t5", "s5", "Article", ["x"], 1, 0⟩,
       ⟨2, "u2", "t2", "s2", "Article", ["y"], 9, 0⟩] := by
    unfold manualScanCandidates
    rw [List.filterMap_cons, hcA, List.filterMap_cons, hcB, List.filterMap_nil]
  rw [hcands]
  have hsort : pySortDesc (fun x : SearchResult => x.similarity)
      [⟨5, "u5", "t5", "s5", "Article", ["x"], 1, 0⟩,
       ⟨2, "u2", "t2", "s2", "Article", ["y"], 9, 0⟩] =
      [⟨5, "u5", "t5", "s5", "Article", ["x"], 1, 0⟩,
       ⟨2, "u2", "t2", "s2", "Article", ["y"], 9, 0⟩] := by
    unfold pySortDesc
    have h1 : List.insertionSort
        (byKeyDesc (fun x : SearchResult => x.similarity))
        [⟨5, "u5", "t5", "s5", "Article", ["x"], 1, 0⟩,
         ⟨2, "u2", "t2", "s2", "Article", ["y"], 9, 0⟩] =
        List.orderedInsert (byKeyDesc (fun x : SearchResult => x.similarity))
          ⟨5, "u5", "t5", "s5", "Article", ["x"], 1, 0⟩
          [⟨2, "u2", "t2", "s2", "Article", ["y"], 9, 0⟩] := rfl
    rw [h1, List.orderedInsert]
    rw [if_pos (show byKeyDesc (fun x : SearchResult => x.similarity)
      ⟨5, "u5", "t5", "s5", "Article", ["x"], 1, 0⟩
      ⟨2, "u2", "t2", "s2", "Article", ["y"], 9, 0⟩ from le_refl (0 : ℚ))]
  rw [hsort]
  rfl

/-- C4 as amended: the fallback result sequence is sorted (non-strictly)
descending by the recorded (3-decimal rounded) similarity, and the sort
is stable and keyed on similarity alone — equal-similarity candidates
keep their fetched relative order and are not reordered by
`quality_score` or `id`. -/
theorem C4_amended (core : List ℚ → List ℚ → ℚ) (q : List ℚ) (lim : ℕ)
    (thr : ℚ) (fetch : Except String (List DbRow)) (e : String) :
    List.Sorted (byKeyDesc (fun r : SearchResult => r.similarity))
      (semantic_search core q lim thr (.error e) fetch) ∧
    (∀ (a b : SearchResult) (cands : List SearchResult),
      List.Sublist [a, b] cands → b.similarity ≤ a.similarity →
      List.Sublist [a, b]
        (pySortDesc (fun r : SearchResult => r.similarity) cands)) := by
  constructor
  · by_cases hg : q = [] ∨ q.length ≠ 1536
    · rw [semantic_search_invalid core q lim thr _ fetch hg]
      exact List.sorted_nil
    · push_neg at hg
      rw [semantic_search_rpc_error core q lim thr e fetch hg.1 hg.2]
      cases fetch with
      | error e' =>
        rw [manualScanSearch_error]
        exact List.sorted_nil
      | ok table =>
        rw [manualScanSearch_ok]
        by_cases hrows : table.filter (fun r => r.embedding ≠ none) = []
        · rw [if_pos hrows]
          exact List.sorted_nil
        · rw [if_neg hrows]
          exact sorted_take (pySortDesc_sorted _ _) lim
  · intro a b cands hab hba
    exact List.pair_sublist_insertionSort hba hab

/-- Witness for `C4_amended` at a concrete input, including the
stability clause at a concrete tied pair. -/
theorem C4_amended_witness :
    (List.Sorted (byKeyDesc (fun r : SearchResult => r.similarity))
      (semantic_search (fun _ _ => 0) qaVec 20 0 (.error "down")
        (.ok []))) ∧
    List.Sublist
      [(⟨5, "u5", "t5", "s5", "Article", ["x"], 1, 0⟩ : SearchResult),
       ⟨2, "u2", "t2", "s2", "Article", ["y"], 9, 0⟩]
      (pySortDesc (fun r : SearchResult => r.similarity)
        [⟨5, "u5", "t5", "s5", "Article", ["x"], 1, 0⟩,
         ⟨2, "u2", "t2", "s2", "Article", ["y"], 9, 0⟩]) := by
  refine ⟨(C4_amended (fun _ _ => 0) qaVec 20 0 (.ok []) "down").1, ?_⟩
  exact (C4_amended (fun _ _ => 0) qaVec 20 0 (.ok []) "down").2
    _ _ _ (List.Sublist.refl _) (le_refl 0)

/-! ### Remaining witnesses -/

/-- Witness for `C3_fallback_then_empty` at concrete inputs. -/
theorem C3_witness :
    semantic_search (fun _ _ => 0) qaVec 5 (3/10) (.error "down") (.ok []) =
      manualScanSearch (fun _ _ => 0) qaVec 5 (3/10) (.ok []) ∧
    semantic_search (fun _ _ => 0) qaVec 5 (3/10) (.error "down")
      (.error "down2") = [] ∧
    get_related_content (fun _ _ => 0) 1 5 (.ok [⟨some zeroVec, "t", "s"⟩])
        (.error "down") (.ok []) =
      manualRelated (fun _ _ => 0) 1 5 zeroVec (.ok []) ∧
    get_related_content (fun _ _ => 0) 1 5 (.ok [⟨some zeroVec, "t", "s"⟩])
        (.error "down") (.error "down2") = [] := by
  obtain ⟨h1, h2, h3, h4⟩ := C3_fallback_then_empty
  exact ⟨h1 _ _ _ _ _ _ qaVec_ne_nil qaVec_length, h2 _ _ _ _ _ _,
    h3 _ _ _ ⟨some zeroVec, "t", "s"⟩ [] zeroVec _ _ rfl zeroVec_ne_nil,
    h4 _ _ _ _ _ _⟩

/-- Witness for `C10_related_excludes_source` at a concrete input. -/
theorem C10_witness :
    (get_related_content (fun _ _ => 0) 1 5 (.error "a") (.error "b")
      (.error "c")).length ≤ 5 :=
  (C10_related_excludes_source (fun _ _ => 0) 1 5 (.error "a") (.error "b")
    (.error "c")).2

/-- Witness for `C5_amended` at a concrete input. -/
theorem C5_amended_witness :
    (generate_response "q" [⟨"", "T", "u", "Article", 8, 1/2⟩]
      (.ok ("hello", 0))).2.2 =
      min (95/100) (max (1/10)
        ((([(⟨"", "T", "u", "Article", 8, 1/2⟩ : KnowledgeContext)].map
            (fun i => i.similarity)).sum /
          ([(⟨"", "T", "u", "Article", 8, 1/2⟩ : KnowledgeContext)].length)) *
            (4/10) +
         (([(⟨"", "T", "u", "Article", 8, 1/2⟩ : KnowledgeContext)].map
            (fun i => i.quality_score)).sum /
          ([(⟨"", "T", "u", "Article", 8, 1/2⟩ : KnowledgeContext)].length)) *
            (1/10) +
         min 1 ((("hello" : String).length : ℚ) / 500) * (3/10) +
         (if strContains "hello" "[Source:" then (1:ℚ)/10 else 0))) :=
  (C5_amended [⟨"", "T", "u", "Article", 8, 1/2⟩] "hello" "q" 0
    (by simp)).1

/-- Witness for `C9_fallback_on_provider_failure` at a concrete input:
the single retrieved source title "T" occurs in the fallback answer. -/
theorem C9_witness :
    (generate_response "q" [⟨"c", "T", "u", "Article", 8, 1/2⟩]
      (.error "boom")).1 =
      generate_fallback_response "q" [⟨"c", "T", "u", "Article", 8, 1/2⟩] ∧
    (generate_response "q" [⟨"c", "T", "u", "Article", 8, 1/2⟩]
      (.error "boom")).2.2 ≤ 3/10 ∧
    strContains
      (generate_response "q" [⟨"c", "T", "u", "Article", 8, 1/2⟩]
        (.error "boom")).1 "T" = true := by
  obtain ⟨h1, h2, _, h4⟩ :=
    C9_fallback_on_provider_failure "q" [⟨"c", "T", "u", "Article", 8, 1/2⟩]
      "boom"
  exact ⟨h1, h2, h4 ⟨"c", "T", "u", "Article", 8, 1/2⟩ (by simp)⟩

/-! ### C8 — the greedy diversity pass -/

theorem enumFrom_eq_map (l : List Rec) : ∀ n : ℕ,
    List.enumFrom n l = l.enum.map (fun p => (p.1 + n, p.2)) := by
  induction l with
  | nil => intro n; rfl
  | cons a l ih =>
    intro n
    rw [List.enumFrom_cons, List.enum_cons, ih (n + 1), ih 1, List.map_cons,
      List.map_map]
    refine congrArg₂ _ (by simp) ?_
    refine List.map_congr_left ?_
    intro p _
    have harith : p.1 + (n + 1) = p.1 + 1 + n := by omega
    simp only [Function.comp, harith]

theorem enum_cons_shift (a : Rec) (l : List Rec) :
    (a :: l).enum = (0, a) :: l.enum.map (fun p => (p.1 + 1, p.2)) := by
  rw [List.enum_cons, enumFrom_eq_map]

theorem diversity_foldl_spec (df : ℚ) : ∀ (rs : List Rec) (out : List Rec)
    (tys tps : List String),
    (rs.foldl (diversityStep df) (out, tys, tps)).1 =
      out ++ rs.enum.map (fun p =>
        { p.2 with score := p.2.score -
            ((if p.2.content_type ∈
                tys ++ (rs.take p.1).map (fun x => x.content_type)
              then df else 0) +
             (((p.2.topics.dedup).filter (fun t =>
                t ∈ tps ++ (rs.take p.1).flatMap (fun x => x.topics))).length :
                ℚ) * df * (1/2)) }) := by
  intro rs
  induction rs with
  | nil => intro out tys tps; simp
  | cons r rs ih =>
    intro out tys tps
    rw [List.foldl_cons]
    have hstep : diversityStep df (out, tys, tps) r =
        (out ++ [{ r with score := r.score -
            ((if r.content_type ∈ tys then df else 0) +
             (((r.topics.dedup).filter (fun t => t ∈ tps)).length : ℚ) *
               df * (1/2)) }],
         tys ++ [r.content_type], tps ++ r.topics) := rfl
    rw [hstep, ih]
    rw [enum_cons_shift, List.map_cons, List.map_map]
    rw [List.append_assoc]
    refine congrArg _ ?_
    rw [List.singleton_append]
    refine congrArg₂ _ ?_ ?_
    · simp
    · refine List.map_congr_left ?_
      intro p _
      simp only [Function.comp, List.take_succ_cons, List.map_cons,
        List.flatMap_cons, List.append_assoc]
      try simp

/-- C8: the diversity pass is a single greedy left-to-right iteration —
item `i` of the score-sorted input list is charged
`diversity_factor` if its content type occurs among the earlier items,
plus `diversity_factor * 0.5` per distinct topic of the item occurring
among the earlier items' topics (the seen-sets grow after each item) —
and the list is then re-sorted by the adjusted scores.  In particular,
for two equal-score items of the same content type, the second is
penalized by at least `diversity_factor` and ranks strictly after the
first. -/
theorem C8_diversity_pass (df : ℚ) (recs : List Rec) (A B : Rec)
    (hdf : 0 < df) (hscore : A.score = B.score)
    (hct : A.content_type = B.content_type) :
    diversityPass df recs =
      pySortDesc (fun r => r.score)
        (recs.enum.map (fun p =>
          { p.2 with score := p.2.score - penaltyAt df recs p.1 p.2 })) ∧
    (∃ pen : ℚ, df ≤ pen ∧
      diversityPass df [A, B] = [A, { B with score := B.score - pen }] ∧
      B.score - pen < A.score) := by
  have hchar : ∀ (l : List Rec), diversityPass df l =
      pySortDesc (fun r => r.score)
        (l.enum.map (fun p =>
          { p.2 with score := p.2.score - penaltyAt df l p.1 p.2 })) := by
    intro l
    unfold diversityPass
    rw [if_pos hdf]
    refine congrArg _ ?_
    rw [diversity_foldl_spec df l [] [] []]
    rw [List.nil_append]
    refine List.map_congr_left ?_
    intro p _
    unfold penaltyAt
    simp only [List.nil_append]
  refine ⟨hchar recs, ?_⟩
  set c : ℚ := (((B.topics.dedup).filter (fun t => t ∈ A.topics)).length : ℚ)
    with hc
  refine ⟨df + c * df * (1/2), ?_, ?_, ?_⟩
  · have hcnn : 0 ≤ c := by positivity
    nlinarith
  · rw [hchar [A, B]]
    have hA : penaltyAt df [A, B] 0 A = 0 := by
      unfold penaltyAt
      simp
    have hB : penaltyAt df [A, B] 1 B = df + c * df * (1/2) := by
      unfold penaltyAt
      have ht : ([A, B].take 1).map (fun x => x.content_type) =
          [A.content_type] := rfl
      have htp : ([A, B].take 1).flatMap (fun x => x.topics) = A.topics := by
        show A.topics ++ [].flatMap (fun x : Rec => x.topics) = A.topics
        simp
      rw [ht, htp]
      rw [if_pos (by rw [← hct]; exact List.mem_singleton.mpr rfl)]
    have henum : ([A, B].enum.map (fun p =>
        { p.2 with score := p.2.score - penaltyAt df [A, B] p.1 p.2 })) =
        [{ A with score := A.score - penaltyAt df [A, B] 0 A },
         { B with score := B.score - penaltyAt df [A, B] 1 B }] := rfl
    rw [henum, hA, hB]
    have hAeq : { A with score := A.score - 0 } = A := by
      have : A.score - 0 = A.score := by ring
      rw [this]
    rw [hAeq]
    have hlt : B.score - (df + c * df * (1/2)) ≤ A.score := by
      have hcnn : 0 ≤ c := by positivity
      nlinarith [hscore]
    unfold pySortDesc
    have h1 : List.insertionSort (byKeyDesc (fun r : Rec => r.score))
        [A, { B with score := B.score - (df + c * df * (1/2)) }] =
        List.orderedInsert (byKeyDesc (fun r : Rec => r.score)) A
          [{ B with score := B.score - (df + c * df * (1/2)) }] := rfl
    rw [h1, List.orderedInsert]
    rw [if_pos (show byKeyDesc (fun r : Rec => r.score) A
      { B with score := B.score - (df + c * df * (1/2)) } from hlt)]
  · have hcnn : 0 ≤ c := by positivity
    nlinarith [hscore]

/-- Witness for `C8_diversity_pass` at a concrete input. -/
theorem C8_diversity_pass_witness :
    diversityPass (3/10) [] =
      pySortDesc (fun r => r.score)
        (([] : List Rec).enum.map (fun p =>
          { p.2 with score := p.2.score - penaltyAt (3/10) [] p.1 p.2 })) ∧
    (∃ pen : ℚ, (3 : ℚ)/10 ≤ pen ∧
      diversityPass (3/10)
          [⟨1, "a", "Article", ["ai"], 8, 5⟩,
           ⟨2, "b", "Article", ["ml"], 8, 5⟩] =
        [⟨1, "a", "Article", ["ai"], 8, 5⟩,
         { (⟨2, "b", "Article", ["ml"], 8, 5⟩ : Rec) with
             score := 5 - pen }] ∧
      (5 : ℚ) - pen < 5) :=
  C8_diversity_pass (3/10) [] ⟨1, "a", "Article", ["ai"], 8, 5⟩
    ⟨2, "b", "Article", ["ml"], 8, 5⟩ (by norm_num) rfl rfl

/-! ### C7 — connected components partition the node set -/

theorem analyzeEdgeOf_some {x y : NetItem} {e : AnEdge}
    (h : analyzeEdgeOf x y = some e) :
    e.source = x.id ∧ e.target = y.id := by
  unfold analyzeEdgeOf at h
  by_cases hc : 0 < (interTopics x.key_topics y.key_topics).length ∧
      0 < unionCount x.key_topics y.key_topics ∧
      1/5 ≤ ((interTopics x.key_topics y.key_topics).length : ℚ) /
        (unionCount x.key_topics y.key_topics : ℚ)
  · rw [if_pos hc] at h
    injection h with h'
    rw [← h']
    exact ⟨rfl, rfl⟩
  · rw [if_neg hc] at h
    cases h

theorem analyzeEdges_mem {data : List NetItem} {e : AnEdge}
    (h : e ∈ analyzeEdges data) :
    e.source ∈ data.map (fun x => x.id) ∧
    e.target ∈ data.map (fun x => x.id) := by
  induction data with
  | nil => cases h
  | cons x xs ih =>
    have h' : e ∈ xs.filterMap (analyzeEdgeOf x) ++ analyzeEdges xs := h
    rcases List.mem_append.mp h' with hl | hr
    · rcases List.mem_filterMap.mp hl with ⟨y, hy, hsome⟩
      obtain ⟨hs, ht⟩ := analyzeEdgeOf_some hsome
      constructor
      · rw [hs]
        exact List.mem_cons_self _ _
      · rw [ht]
        exact List.mem_cons_of_mem _ (List.mem_map_of_mem _ hy)
    · obtain ⟨hs, ht⟩ := ih hr
      exact ⟨List.mem_cons_of_mem _ hs, List.mem_cons_of_mem _ ht⟩

theorem adjOf_mem {data : List NetItem} {m b : ℤ} (h : b ∈ adjOf data m) :
    b ∈ data.map (fun x => x.id) := by
  unfold adjOf at h
  rcases List.mem_flatMap.mp h with ⟨e, he, hb⟩
  rcases List.mem_append.mp hb with hb | hb
  · by_cases hs : e.source = m
    · rw [if_pos hs] at hb
      rw [List.mem_singleton.mp hb]
      exact (analyzeEdges_mem he).2
    · rw [if_neg hs] at hb
      cases hb
  · by_cases ht : e.target = m
    · rw [if_pos ht] at hb
      rw [List.mem_singleton.mp hb]
      exact (analyzeEdges_mem he).1
    · rw [if_neg ht] at hb
      cases hb

theorem adjOf_symm {data : List NetItem} {m n : ℤ}
    (h : n ∈ adjOf data m) : m ∈ adjOf data n := by
  unfold adjOf at h ⊢
  rcases List.mem_flatMap.mp h with ⟨e, he, hb⟩
  refine List.mem_flatMap.mpr ⟨e, he, ?_⟩
  rcases List.mem_append.mp hb with hb | hb
  · by_cases hs : e.source = m
    · rw [if_pos hs] at hb
      have hn : e.target = n := (List.mem_singleton.mp hb).symm
      refine List.mem_append.mpr (Or.inr ?_)
      rw [if_pos hn, hs]
      exact List.mem_singleton.mpr rfl
    · rw [if_neg hs] at hb
      cases hb
  · by_cases ht : e.target = m
    · rw [if_pos ht] at hb
      have hn : e.source = n := (List.mem_singleton.mp hb).symm
      refine List.mem_append.mpr (Or.inl ?_)
      rw [if_pos hn, ht]
      exact List.mem_singleton.mpr rfl
    · rw [if_neg ht] at hb
      cases hb

theorem dfsF_delta (adj : ℤ → List ℤ) (P : ℤ → Prop)
    (hadj : ∀ m b, b ∈ adj m → P b) :
    ∀ (f : ℕ) (n : ℤ) (vis comp : List ℤ), P n →
      ∃ δ : List ℤ, dfsF adj f n (vis, comp) = (vis ++ δ, comp ++ δ) ∧
        δ.Nodup ∧ (∀ x ∈ δ, x ∉ vis) ∧ (∀ x ∈ δ, P x) ∧
        (0 < f → n ∉ vis → n ∈ δ) := by
  intro f
  induction f with
  | zero =>
    intro n vis comp hP
    exact ⟨[], by simp [dfsF], List.nodup_nil, by simp, by simp,
      fun h => absurd h (by norm_num)⟩
  | succ f ih =>
    intro n vis comp hP
    by_cases hvis : n ∈ vis
    · refine ⟨[], ?_, List.nodup_nil, by simp, by simp,
        fun _ hn => absurd hvis hn⟩
      show (if n ∈ vis then (vis, comp)
        else (adj n).foldl (fun s nb => dfsF adj f nb s)
          (vis ++ [n], comp ++ [n])) = (vis ++ [], comp ++ [])
      rw [if_pos hvis]
      simp
    · have hfold : ∀ (l : List ℤ), (∀ b ∈ l, P b) →
          ∀ (vis' comp' : List ℤ),
          ∃ δ : List ℤ,
            l.foldl (fun s nb => dfsF adj f nb s) (vis', comp') =
              (vis' ++ δ, comp' ++ δ) ∧ δ.Nodup ∧
            (∀ x ∈ δ, x ∉ vis') ∧ (∀ x ∈ δ, P x) := by
        intro l
        induction l with
        | nil =>
          intro _ vis' comp'
          exact ⟨[], by simp, List.nodup_nil, by simp, by simp⟩
        | cons b bs ihl =>
          intro hl vis' comp'
          rcases ih b vis' comp' (hl b (List.mem_cons_self _ _)) with
            ⟨δ₁, h1, hn1, hv1, hp1, _⟩
          rcases ihl (fun x hx => hl x (List.mem_cons_of_mem _ hx))
              (vis' ++ δ₁) (comp' ++ δ₁) with ⟨δ₂, h2, hn2, hv2, hp2⟩
          refine ⟨δ₁ ++ δ₂, ?_, ?_, ?_, ?_⟩
          · rw [List.foldl_cons, h1, h2, List.append_assoc,
              List.append_assoc]
          · rw [List.nodup_append]
            refine ⟨hn1, hn2, ?_⟩
            intro x hx1 hx2
            exact (hv2 x hx2) (List.mem_append.mpr (Or.inr hx1))
          · intro x hx
            rcases List.mem_append.mp hx with hx | hx
            · exact hv1 x hx
            · intro hxv
              exact (hv2 x hx) (List.mem_append.mpr (Or.inl hxv))
          · intro x hx
            rcases List.mem_append.mp hx with hx | hx
            · exact hp1 x hx
            · exact hp2 x hx
      rcases hfold (adj n) (fun b hb => hadj n b hb) (vis ++ [n])
          (comp ++ [n]) with ⟨δ', hf, hnδ, hvδ, hpδ⟩
      refine ⟨n :: δ', ?_, ?_, ?_, ?_, fun _ _ => List.mem_cons_self _ _⟩
      · have hstep : dfsF adj (f + 1) n (vis, comp) =
            (adj n).foldl (fun s nb => dfsF adj f nb s)
              (vis ++ [n], comp ++ [n]) := by
          show (if n ∈ vis then (vis, comp)
            else (adj n).foldl (fun s nb => dfsF adj f nb s)
              (vis ++ [n], comp ++ [n])) = _
          rw [if_neg hvis]
        rw [hstep, hf, List.append_assoc, List.append_assoc]
        simp
      · refine List.nodup_cons.mpr ⟨?_, hnδ⟩
        intro hn
        exact (hvδ n hn)
          (List.mem_append.mpr (Or.inr (List.mem_singleton.mpr rfl)))
      · intro x hx
        rcases List.mem_cons.mp hx with rfl | hx
        · exact hvis
        · intro hxv
          exact (hvδ x hx) (List.mem_append.mpr (Or.inl hxv))
      · intro x hx
        rcases List.mem_cons.mp hx with rfl | hx
        · exact hP
        · exact hpδ x hx

theorem dfsF_isolated (adj : ℤ → List ℤ) (f : ℕ) (n : ℤ)
    (vis comp : List ℤ) (hadj : adj n = []) (hvis : n ∉ vis) (hf : 0 < f) :
    dfsF adj f n (vis, comp) = (vis ++ [n], comp ++ [n]) := by
  cases f with
  | zero => exact absurd hf (by norm_num)
  | succ f =>
    show (if n ∈ vis then (vis, comp)
      else (adj n).foldl (fun s nb => dfsF adj f nb s)
        (vis ++ [n], comp ++ [n])) = _
    rw [if_neg hvis, hadj]
    rfl

theorem componentStep_mono (adj : ℤ → List ℤ) (fuel : ℕ) :
    ∀ (l : List ℤ) (s : List ℤ × List (List ℤ)) (c : List ℤ),
    c ∈ s.2 → c ∈ (l.foldl (componentStep adj fuel) s).2 := by
  intro l
  induction l with
  | nil => intro s c hc; exact hc
  | cons a rest ih =>
    intro s c hc
    rw [List.foldl_cons]
    refine ih _ c ?_
    unfold componentStep
    by_cases ha : a ∈ s.1
    · rw [if_pos ha]; exact hc
    · rw [if_neg ha]
      by_cases hr : (dfsF adj fuel a (s.1, [])).2 = []
      · rw [if_pos hr]; exact hc
      · rw [if_neg hr]
        exact List.mem_append.mpr (Or.inl hc)

theorem componentLoop_spec (adj : ℤ → List ℤ) (fuel : ℕ) (P : ℤ → Prop)
    (hadj : ∀ m b, b ∈ adj m → P b) (hfuel : 0 < fuel) :
    ∀ (l : List ℤ) (s : List ℤ × List (List ℤ)), (∀ n ∈ l, P n) →
      ∃ new : List (List ℤ),
        (l.foldl (componentStep adj fuel) s).2 = s.2 ++ new ∧
        (l.foldl (componentStep adj fuel) s).1 = s.1 ++ new.flatten ∧
        new.flatten.Nodup ∧ (∀ x ∈ new.flatten, x ∉ s.1) ∧
        (∀ x ∈ new.flatten, P x) ∧
        (∀ n ∈ l, n ∈ (l.foldl (componentStep adj fuel) s).1) := by
  intro l
  induction l with
  | nil =>
    intro s _
    exact ⟨[], by simp, by simp, List.nodup_nil, by simp, by simp, by simp⟩
  | cons a rest ih =>
    intro s hl
    by_cases ha : a ∈ s.1
    · have hstep : componentStep adj fuel s a = s := by
        unfold componentStep
        rw [if_pos ha]
      rw [List.foldl_cons, hstep]
      rcases ih s (fun n hn => hl n (List.mem_cons_of_mem _ hn)) with
        ⟨new, h2, h1, hnd, hnv, hP, hmem⟩
      refine ⟨new, h2, h1, hnd, hnv, hP, ?_⟩
      intro n hn
      rcases List.mem_cons.mp hn with rfl | hn
      · rw [h1]
        exact List.mem_append.mpr (Or.inl ha)
      · exact hmem n hn
    · rcases dfsF_delta adj P hadj fuel a s.1 []
          (hl a (List.mem_cons_self _ _)) with ⟨δ, hdfs, hnδ, hvδ, hpδ, hin⟩
      have haδ : a ∈ δ := hin hfuel ha
      have hδne : δ ≠ [] := fun h => by rw [h] at haδ; cases haδ
      have hstep : componentStep adj fuel s a = (s.1 ++ δ, s.2 ++ [δ]) := by
        unfold componentStep
        rw [if_neg ha]
        simp only [hdfs, List.nil_append]
        rw [if_neg hδne]
      rw [List.foldl_cons, hstep]
      rcases ih (s.1 ++ δ, s.2 ++ [δ])
          (fun n hn => hl n (List.mem_cons_of_mem _ hn)) with
        ⟨new₂, h2, h1, hnd, hnv, hP, hmem⟩
      refine ⟨δ :: new₂, ?_, ?_, ?_, ?_, ?_, ?_⟩
      · rw [h2]
        simp
      · rw [h1, List.flatten_cons, ← List.append_assoc]
      · rw [List.flatten_cons, List.nodup_append]
        refine ⟨hnδ, hnd, ?_⟩
        intro x hx1 hx2
        exact (hnv x hx2) (List.mem_append.mpr (Or.inr hx1))
      · intro x hx
        rw [List.flatten_cons] at hx
        rcases List.mem_append.mp hx with hx | hx
        · exact hvδ x hx
        · intro hxv
          exact (hnv x hx) (List.mem_append.mpr (Or.inl hxv))
      · intro x hx
        rw [List.flatten_cons] at hx
        rcases List.mem_append.mp hx with hx | hx
        · exact hpδ x hx
        · exact hP x hx
      · intro n hn
        rcases List.mem_cons.mp hn with rfl | hn
        · rw [h1]
          exact List.mem_append.mpr
            (Or.inl (List.mem_append.mpr (Or.inr haδ)))
        · exact hmem n hn

theorem componentLoop_isolated (adj : ℤ → List ℤ) (fuel : ℕ)
    (hfuel : 0 < fuel) :
    ∀ (l : List ℤ) (s : List ℤ × List (List ℤ)) (n : ℤ),
      n ∈ l → adj n = [] → n ∉ s.1 → (∀ m, n ∉ adj m) →
      [n] ∈ (l.foldl (componentStep adj fuel) s).2 := by
  intro l
  induction l with
  | nil => intro s n hn; cases hn
  | cons a rest ih =>
    intro s n hn hiso hnv hnoadj
    by_cases hna : n = a
    · subst hna
      have hstep : componentStep adj fuel s n = (s.1 ++ [n], s.2 ++ [[n]]) := by
        unfold componentStep
        rw [if_neg hnv]
        simp only [dfsF_isolated adj fuel n s.1 [] hiso hnv hfuel,
          List.nil_append]
        rw [if_neg (List.cons_ne_nil _ _)]
      rw [List.foldl_cons, hstep]
      exact componentStep_mono adj fuel rest _ [n]
        (List.mem_append.mpr (Or.inr (List.mem_singleton.mpr rfl)))
    · have hn' : n ∈ rest := by
        rcases List.mem_cons.mp hn with h | h
        · exact absurd h hna
        · exact h
      rw [List.foldl_cons]
      by_cases ha : a ∈ s.1
      · have hstep : componentStep adj fuel s a = s := by
          unfold componentStep
          rw [if_pos ha]
        rw [hstep]
        exact ih s n hn' hiso hnv hnoadj
      · rcases dfsF_delta adj (fun x => x = a ∨ ∃ m, x ∈ adj m)
            (fun m b hb => Or.inr ⟨m, hb⟩) fuel a s.1 [] (Or.inl rfl) with
          ⟨δ, hdfs, _, _, hpδ, hin⟩
        have hδne : δ ≠ [] := fun h => by
          have := hin hfuel ha
          rw [h] at this
          cases this
        have hstep : componentStep adj fuel s a = (s.1 ++ δ, s.2 ++ [δ]) := by
          unfold componentStep
          rw [if_neg ha]
          simp only [hdfs, List.nil_append]
          rw [if_neg hδne]
        rw [hstep]
        refine ih _ n hn' hiso ?_ hnoadj
        intro hmem
        rcases List.mem_append.mp hmem with h | h
        · exact hnv h
        · rcases hpδ n h with h' | ⟨m, hm⟩
          · exact hna h'
          · exact hnoadj m hm

theorem communities_foldl :
    ∀ (comps : List (List ℤ)) (acc : List Community),
    ((comps.foldl (fun acc comp =>
        if 3 ≤ comp.length then acc ++ [⟨comp.length, comp⟩] else acc)
      acc).map (fun c => c.nodes)) =
      acc.map (fun c => c.nodes) ++
        comps.filter (fun c => 3 ≤ c.length) ∧
    (∀ c ∈ comps.foldl (fun acc comp =>
        if 3 ≤ comp.length then acc ++ [⟨comp.length, comp⟩] else acc) acc,
      c ∈ acc ∨ c.size = c.nodes.length) := by
  intro comps
  induction comps with
  | nil =>
    intro acc
    exact ⟨by simp, fun c hc => Or.inl hc⟩
  | cons comp comps ih =>
    intro acc
    rw [List.foldl_cons]
    by_cases h3 : 3 ≤ comp.length
    · rw [if_pos h3]
      obtain ⟨hmap, hsz⟩ := ih (acc ++ [⟨comp.length, comp⟩])
      constructor
      · rw [hmap, List.map_append]
        rw [List.filter_cons_of_pos (by simpa using h3)]
        simp
      · intro c hc
        rcases hsz c hc with hc' | hc'
        · rcases List.mem_append.mp hc' with h | h
          · exact Or.inl h
          · right
            rw [List.mem_singleton.mp h]
        · exact Or.inr hc'
    · rw [if_neg h3]
      obtain ⟨hmap, hsz⟩ := ih acc
      refine ⟨?_, hsz⟩
      rw [hmap, List.filter_cons_of_neg (by simpa using h3)]

/-- C7: on a corpus with distinct ids, the connected-components step of
`analyze_content_network` partitions the node set — the concatenation of
the components is a permutation of the id list, so every item belongs to
exactly one component and no component repeats a node — isolated items
(empty adjacency) form singleton components, and the communities are
exactly the components of size at least 3 (each community record
carrying its component and its size). -/
theorem C7_components_partition (data : List NetItem)
    (hnd : (data.map (fun x => x.id)).Nodup) :
    List.Perm (netComponents data).flatten (data.map (fun x => x.id)) ∧
    (∀ item ∈ data, adjOf data item.id = [] →
      [item.id] ∈ netComponents data) ∧
    (netCommunities data).map (fun c => c.nodes) =
      (netComponents data).filter (fun c => 3 ≤ c.length) ∧
    (∀ c ∈ netCommunities data, c.size = c.nodes.length) := by
  have hcomp : netComponents data =
      ((data.map (fun x => x.id)).foldl
        (componentStep (adjOf data) ((data.map (fun x => x.id)).length + 1))
        ([], [])).2 := rfl
  obtain ⟨new, h2, h1, hnd', hnv, hP, hmem⟩ :=
    componentLoop_spec (adjOf data) ((data.map (fun x => x.id)).length + 1)
      (fun x => x ∈ data.map (fun x => x.id))
      (fun m b hb => adjOf_mem hb) (Nat.succ_pos _)
      (data.map (fun x => x.id)) ([], []) (fun n hn => hn)
  rw [List.nil_append] at h2
  rw [List.nil_append] at h1
  have hcomps : netComponents data = new := by rw [hcomp, h2]
  refine ⟨?_, ?_, ?_, ?_⟩
  · rw [hcomps]
    refine (List.perm_ext_iff_of_nodup hnd' hnd).mpr ?_
    intro a
    constructor
    · intro ha
      exact hP a ha
    · intro ha
      have := hmem a ha
      rw [h1] at this
      exact this
  · intro item hitem hiso
    rw [hcomp]
    refine componentLoop_isolated (adjOf data) _ (Nat.succ_pos _) _ _ _
      (List.mem_map_of_mem _ hitem) hiso (by simp) ?_
    intro m hm
    have := adjOf_symm hm
    rw [hiso] at this
    cases this
  · have h := (communities_foldl (netComponents data) []).1
    unfold netCommunities
    rw [h]
    simp
  · intro c hc
    have h := (communities_foldl (netComponents data) []).2 c hc
    rcases h with h | h
    · cases h
    · exact h

/-- Witness for `C7_components_partition` at a concrete two-item corpus
with distinct ids. -/
theorem C7_witness :
    List.Perm
      (netComponents [⟨1, "A", "Article", ["ai"], 7⟩,
                      ⟨2, "B", "Blog", ["ml"], 5⟩]).flatten
      ([(⟨1, "A", "Article", ["ai"], 7⟩ : NetItem),
        ⟨2, "B", "Blog", ["ml"], 5⟩].map (fun x => x.id)) :=
  (C7_components_partition
    [⟨1, "A", "Article", ["ai"], 7⟩, ⟨2, "B", "Blog", ["ml"], 5⟩]
    (by decide)).1

end MindCanvas
